import Mathlib

/-!
Verification of the bold-brew package-catalog engine against its
natural-language specification.

The definitions below are a shallow embedding of the Go sources under
`internal/services` and `internal/models`:

* Go strings are Lean `String`s; the Go standard-library string helpers
  used by the code (`strings.TrimSpace`, `strings.Split`, `strings.Index`,
  `strings.LastIndex`, `strings.Contains`, `strings.ToLower`,
  `strings.HasPrefix`, `strconv.Atoi`) are re-implemented here as `go...`
  functions with Go's semantics (ASCII case folding suffices for the data
  the program handles).
* Go maps (`map[string]V`) are association lists with replace-or-append
  insertion (`goMapInsert`) and first-match lookup (`goMapGet`); since
  insertion never duplicates a key, lookup agrees with Go map semantics,
  and the nondeterministic iteration order of a Go map is modelled by
  quantifying over permutations of the association list where it matters.
* External effects (process execution, HTTP, JSON decoding, the on-disk
  cache) enter as explicit parameters: a command or network call is an
  `Except String String` (error or raw bytes), a JSON decode is a function
  from the raw bytes to the decoded value, and the cache is a map from
  document name to an aged blob.  Cache writes are side effects that no
  claim observes and are elided from the return values.
-/

namespace BBrew

/-! ## Go string primitives -/

/-- Whitespace as recognised by Go's `strings.TrimSpace` on ASCII input. -/
def isGoSpace (c : Char) : Bool :=
  c = ' ' || c = '\t' || c = '\n' || c = '\r' || c = '\x0b' || c = '\x0c'

/-- Model of `strings.TrimSpace` on the character list. -/
def trimSpaceList (l : List Char) : List Char :=
  ((l.dropWhile isGoSpace).reverse.dropWhile isGoSpace).reverse

/-- Model of `strings.TrimSpace`. -/
def goTrimSpace (s : String) : String :=
  String.mk (trimSpaceList s.toList)

/-- Split a character list at every occurrence of `sep`
(model of `strings.Split` with a one-character separator). -/
def splitCharList (sep : Char) : List Char → List (List Char)
  | [] => [[]]
  | c :: cs =>
    match splitCharList sep cs with
    | [] => [[]]
    | r :: rs => if c = sep then [] :: r :: rs else (c :: r) :: rs

/-- Model of `strings.Split s (String.singleton sep)`. -/
def goSplit (s : String) (sep : Char) : List String :=
  (splitCharList sep s.toList).map String.mk

/-- Does the first list start with the second
(model of `strings.HasPrefix` on character lists)? -/
def goStartsWithList : List Char → List Char → Bool
  | _, [] => true
  | [], _ :: _ => false
  | c :: cs, p :: ps => c = p && goStartsWithList cs ps

/-- Model of `strings.HasPrefix`. -/
def goStartsWith (s pat : String) : Bool :=
  goStartsWithList s.toList pat.toList

/-- Does `sub` occur as a contiguous run inside `l`
(model of `strings.Contains` on character lists)? -/
def goContainsList (sub : List Char) : List Char → Bool
  | [] => sub.isEmpty
  | c :: cs => goStartsWithList (c :: cs) sub || goContainsList sub cs

/-- Model of `strings.Contains s sub`. -/
def goContains (s sub : String) : Bool :=
  goContainsList sub.toList s.toList

/-- Model of `strings.ToLower` (ASCII). -/
def goToLower (s : String) : String :=
  String.mk (s.toList.map Char.toLower)

/-- Index of the first occurrence of `c`, `-1` when absent
(model of `strings.Index` with a one-character needle). -/
def goIndexOfChar (l : List Char) (c : Char) : Int :=
  match l with
  | [] => -1
  | x :: xs =>
    if x = c then 0
    else
      let r := goIndexOfChar xs c
      if r = -1 then -1 else r + 1

/-- Index of the last occurrence of `c`, `-1` when absent
(model of `strings.LastIndex` with a one-character needle). -/
def goLastIndexOfChar (l : List Char) (c : Char) : Int :=
  let r := goIndexOfChar l.reverse c
  if r = -1 then -1 else (l.length : Int) - 1 - r

/-- Numeric value of a digit string (helper for `goAtoi`). -/
def digitsVal (l : List Char) : Nat :=
  l.foldl (fun acc c => acc * 10 + (c.toNat - '0'.toNat)) 0

/-- Model of `strconv.Atoi` with the error ignored, as the code does
(`downloads, _ := strconv.Atoi(...)`): a malformed string yields `0`. -/
def goAtoi (s : String) : Int :=
  match s.toList with
  | [] => 0
  | '-' :: ds => if ds ≠ [] ∧ ds.all Char.isDigit then -(digitsVal ds : Int) else 0
  | '+' :: ds => if ds ≠ [] ∧ ds.all Char.isDigit then (digitsVal ds : Int) else 0
  | ds => if ds.all Char.isDigit then (digitsVal ds : Int) else 0

/-- Model of `strings.ReplaceAll s "," ""`. -/
def goRemoveCommas (s : String) : String :=
  String.mk (s.toList.filter (fun c => c ≠ ','))

/-! ## Go maps as association lists -/

/-- Model of Go map assignment `m[k] = v`: replace the binding of `k` in
place when present, append it otherwise. -/
def goMapInsert {β : Type} (m : List (String × β)) (k : String) (v : β) :
    List (String × β) :=
  match m with
  | [] => [(k, v)]
  | (k', v') :: rest =>
    if k' = k then (k, v) :: rest else (k', v') :: goMapInsert rest k v

/-- Model of Go map lookup `v, ok := m[k]`. -/
def goMapGet {β : Type} (m : List (String × β)) (k : String) : Option β :=
  match m with
  | [] => none
  | (k', v) :: rest => if k' = k then some v else goMapGet rest k

/-! ## Sorting

Go's `sort.Slice(l, less)` only guarantees its output is a permutation of
`l` that is sorted for `less`; ties land in unspecified order.  The model
pins this down to a deterministic refinement: a stable insertion sort by
the non-strict total order `le a b = !(less b a)`.  Everywhere the code
sorts, keys are distinct or the proved statements are tie-insensitive
(permutation and sortedness), so the choice of refinement is harmless. -/

/-- Insert `x` into `l` before the first element it is `le`-below. -/
def insertSorted {α : Type} (le : α → α → Bool) (x : α) : List α → List α
  | [] => [x]
  | y :: ys => if le x y then x :: y :: ys else y :: insertSorted le x ys

/-- Sort `l` by the boolean total order `le` (insertion sort). -/
def sortByLe {α : Type} (le : α → α → Bool) (l : List α) : List α :=
  l.foldr (insertSorted le) []


/-! ## Data model (`internal/models`)

Field defaults are Go zero values, so record literals can mention only the
fields a test sets, exactly as Go composite literals do.  JSON passthrough
fields of `Formula` that no embedded operation reads (licence, URLs,
dependency arrays, deprecation metadata, …) are omitted. -/

/-- Go `models.PackageType` is a string type with three constants. -/
abbrev PackageType := String

def PackageTypeFormula : PackageType := "formula"

def PackageTypeCask : PackageType := "cask"

def PackageTypeFlatpak : PackageType := "flatpak"

/-- Go `models.Requirement`. -/
structure Requirement where
  name : String := ""
  version : String := ""
  contexts : List String := []
  deriving DecidableEq, Repr

/-- Go `models.Versions`. -/
structure Versions where
  stable : String := ""
  head : String := ""
  bottle : Bool := false
  deriving DecidableEq, Repr

/-- Go `models.BottleFile`. -/
structure BottleFile where
  cellar : String := ""
  url : String := ""
  sha256 : String := ""
  deriving DecidableEq, Repr

/-- Go `models.BottleStable`; `files` is a Go `map[string]BottleFile`,
modelled as an association list (the code only iterates over its keys). -/
structure BottleStable where
  rebuild : Int := 0
  rootURL : String := ""
  files : List (String × BottleFile) := []
  deriving DecidableEq, Repr

/-- Go `models.Bottle`. -/
structure Bottle where
  stable : BottleStable := {}
  deriving DecidableEq, Repr

/-- Go `models.Installed` (the fields the embedded operations read). -/
structure Installed where
  version : String := ""
  installedAsDependency : Bool := false
  installedOnRequest : Bool := false
  deriving DecidableEq, Repr

/-- Go `models.Formula`, restricted to the fields some embedded operation
reads; the remaining fields are JSON-decoding passthrough that no code
under verification touches. -/
structure Formula where
  name : String := ""
  fullName : String := ""
  description : String := ""
  homepage : String := ""
  versions : Versions := {}
  bottle : Bottle := {}
  requirements : List Requirement := []
  installed : List Installed := []
  outdated : Bool := false
  analytics90dRank : Int := 0
  analytics90dDownloads : Int := 0
  locallyInstalled : Bool := false
  localPath : String := ""
  deriving DecidableEq, Repr

/-- Modelled from the spec: the cask record type is not under `src/`; its
fields are exactly those the code under `src/` reads or writes
(`NewPackageFromCask`, `markCasksAsInstalled`, `GetPackages`,
`fetchPackagesInfo`). -/
structure Cask where
  token : String := ""
  fullToken : String := ""
  name : List String := []
  description : String := ""
  homepage : String := ""
  version : String := ""
  outdated : Bool := false
  analytics90dRank : Int := 0
  analytics90dDownloads : Int := 0
  locallyInstalled : Bool := false
  isCask : Bool := false
  deriving DecidableEq, Repr

/-- Go `models.AnalyticsItem`. -/
structure AnalyticsItem where
  number : Int := 0
  formula : String := ""
  cask : String := ""
  count : String := ""
  percent : String := ""
  deriving DecidableEq, Repr

/-- Go `models.Analytics` (the fields the fetchers read). -/
structure Analytics where
  category : String := ""
  totalItems : Int := 0
  totalCount : Int := 0
  items : List AnalyticsItem := []
  deriving DecidableEq, Repr

/-- Go `models.Package`: the unified catalog entity. -/
structure Package where
  name : String := ""
  displayName : String := ""
  description : String := ""
  homepage : String := ""
  version : String := ""
  locallyInstalled : Bool := false
  outdated : Bool := false
  type : PackageType := ""
  analytics90dRank : Int := 0
  analytics90dDownloads : Int := 0
  formula : Option Formula := none
  cask : Option Cask := none
  installedOnRequest : Bool := false
  deriving DecidableEq, Repr

/-- Go `models.BrewfileEntry`. -/
structure BrewfileEntry where
  name : String := ""
  isCask : Bool := false
  isFlatpak : Bool := false
  deriving DecidableEq, Repr

/-- Go `models.BrewfileResult`. -/
structure BrewfileResult where
  taps : List String := []
  packages : List BrewfileEntry := []
  deriving DecidableEq, Repr

/-! ## Package constructors (`internal/models/package.go`) -/

/-- Go `models.NewPackageFromFormula`. -/
def NewPackageFromFormula (f : Formula) : Package :=
  let installedOnRequest :=
    match f.installed with
    | [] => false
    | first :: _ => first.installedOnRequest
  { name := f.name
    displayName := f.fullName
    description := f.description
    homepage := f.homepage
    version := f.versions.stable
    locallyInstalled := f.locallyInstalled
    outdated := f.outdated
    type := PackageTypeFormula
    analytics90dRank := f.analytics90dRank
    analytics90dDownloads := f.analytics90dDownloads
    formula := some f
    cask := none
    installedOnRequest := installedOnRequest }

/-- Go `models.NewPackageFromCask`; note the unconditional
`InstalledOnRequest: true` ("Casks are always explicitly installed"). -/
def NewPackageFromCask (c : Cask) : Package :=
  let displayName :=
    match c.name with
    | [] => c.token
    | first :: _ => first
  { name := c.token
    displayName := displayName
    description := c.description
    homepage := c.homepage
    version := c.version
    locallyInstalled := c.locallyInstalled
    outdated := c.outdated
    type := PackageTypeCask
    analytics90dRank := c.analytics90dRank
    analytics90dDownloads := c.analytics90dDownloads
    formula := none
    cask := some c
    installedOnRequest := true }

/-! ## Installed-state stamping (`dataprovider.go`) -/

/-- Go `DataProvider.markFormulaeAsInstalled`: stamp every record as
locally installed and derive its Cellar path (`filepath.Join` on the
clean inputs the code passes is plain concatenation). -/
def markFormulaeAsInstalled (prefixPath : String) (formulae : List Formula) :
    List Formula :=
  formulae.map fun f =>
    { f with locallyInstalled := true
             localPath := prefixPath ++ "/Cellar/" ++ f.name }

/-- Go `DataProvider.markCasksAsInstalled`. -/
def markCasksAsInstalled (casks : List Cask) : List Cask :=
  casks.map fun c => { c with locallyInstalled := true, isCask := true }

/-! ## Catalog merger (`DataProvider.GetPackages`) -/

/-- Analytics attachment as inlined four times in `GetPackages`:
`if a, exists := analytics[key]; exists && a.Number > 0 { ... }`. -/
def attachAnalytics (analytics : String → Option AnalyticsItem) (key : String)
    (pkg : Package) : Package :=
  match analytics key with
  | some a =>
    if a.number > 0 then
      { pkg with analytics90dRank := a.number
                 analytics90dDownloads := goAtoi (goRemoveCommas a.count) }
    else pkg
  | none => pkg

/-- The package built for a formula in `GetPackages`. -/
def formulaPackage (analytics : String → Option AnalyticsItem) (f : Formula) :
    Package :=
  attachAnalytics analytics f.name (NewPackageFromFormula f)

/-- The package built for a cask in `GetPackages`. -/
def caskPackage (analytics : String → Option AnalyticsItem) (c : Cask) :
    Package :=
  attachAnalytics analytics c.token (NewPackageFromCask c)

/-- The `continue` conditions of the remote-formula loop of `GetPackages`
on the linux platform: skip when a requirement is named `macos`, or when
bottle files exist but no bottle key contains `linux`. -/
def linuxSkipFormula (f : Formula) : Bool :=
  if f.requirements.any (fun r => r.name == "macos") then true
  else if f.bottle.stable.files.length > 0 then
    !(f.bottle.stable.files.any (fun kv => goContains kv.1 "linux"))
  else false

/-- First loop of `GetPackages`: insert remote formulae, skipping
platform-incompatible ones on linux, never overwriting. -/
def insertRemoteFormulae (isLinux : Bool)
    (formulaeAnalytics : String → Option AnalyticsItem)
    (remoteFormulae : List Formula) : List (String × Package) :=
  remoteFormulae.foldl
    (fun m f =>
      if isLinux && linuxSkipFormula f then m
      else if (goMapGet m f.name).isSome then m
      else goMapInsert m f.name (formulaPackage formulaeAnalytics f)) []

/-- Second loop of `GetPackages`: overwrite/insert installed formulae
unconditionally. -/
def insertInstalledFormulae (formulaeAnalytics : String → Option AnalyticsItem)
    (installedFormulae : List Formula) (m : List (String × Package)) :
    List (String × Package) :=
  installedFormulae.foldl
    (fun m f => goMapInsert m f.name (formulaPackage formulaeAnalytics f)) m

/-- Third loop of `GetPackages` (skipped on linux): insert remote casks,
never overwriting. -/
def insertRemoteCasks (caskAnalytics : String → Option AnalyticsItem)
    (remoteCasks : List Cask) (m : List (String × Package)) :
    List (String × Package) :=
  remoteCasks.foldl
    (fun m c =>
      if (goMapGet m c.token).isSome then m
      else goMapInsert m c.token (caskPackage caskAnalytics c)) m

/-- Fourth loop of `GetPackages`: overwrite/insert installed casks
unconditionally. -/
def insertInstalledCasks (caskAnalytics : String → Option AnalyticsItem)
    (installedCasks : List Cask) (m : List (String × Package)) :
    List (String × Package) :=
  installedCasks.foldl
    (fun m c => goMapInsert m c.token (caskPackage caskAnalytics c)) m

/-- The four insertion loops of `GetPackages`, building `packageMap`. -/
def buildPackageMap (remoteFormulae installedFormulae : List Formula)
    (formulaeAnalytics : String → Option AnalyticsItem)
    (remoteCasks installedCasks : List Cask)
    (caskAnalytics : String → Option AnalyticsItem)
    (isLinux : Bool) : List (String × Package) :=
  let m1 := insertRemoteFormulae isLinux formulaeAnalytics remoteFormulae
  let m2 := insertInstalledFormulae formulaeAnalytics installedFormulae m1
  let m3 :=
    if !isLinux then insertRemoteCasks caskAnalytics remoteCasks m2 else m2
  insertInstalledCasks caskAnalytics installedCasks m3

/-- The comparison `sort.Slice` is given in `GetPackages`
(`Name < Name`), as the non-strict total order a correct sort realises. -/
def nameLe (a b : Package) : Bool :=
  decide (a.name ≤ b.name)

/-- Go `DataProvider.GetPackages`: build the name-keyed map from the six
sources, then emit its values sorted by name.  Go iterates the map in an
unspecified order before sorting; this definition uses the association
list's own order, and order-independence of the final result is proved
separately. -/
def GetPackages (remoteFormulae installedFormulae : List Formula)
    (formulaeAnalytics : String → Option AnalyticsItem)
    (remoteCasks installedCasks : List Cask)
    (caskAnalytics : String → Option AnalyticsItem)
    (isLinux : Bool) : List Package :=
  sortByLe nameLe
    ((buildPackageMap remoteFormulae installedFormulae formulaeAnalytics
      remoteCasks installedCasks caskAnalytics isLinux).map Prod.snd)

/-! ## Disk cache and source fetchers (`dataprovider.go`)

External effects appear as parameters: a `brew` invocation or HTTPS GET is
an `Except String String` (typed error or raw output), and each
`json.Unmarshal` is a decode function on the raw bytes.  `ensureCacheDir`
and `writeCacheFile` are side effects no claim observes and are elided. -/

/-- Cache file names (the Go `const` block). -/
def cacheFileInstalled : String := "installed.json"

def cacheFileInstalledCasks : String := "installed-casks.json"

def cacheFileFormulae : String := "formula.json"

def cacheFileCasks : String := "cask.json"

def cacheFileAnalytics : String := "analytics.json"

def cacheFileCaskAnalytics : String := "cask-analytics.json"

def cacheFileTapPackages : String := "tap-packages.json"

/-- A cached document: its age in cache ticks (minutes) and raw bytes. -/
structure CacheDoc where
  age : Nat
  data : String
  deriving DecidableEq, Repr

/-- The cache directory contents, by logical document name. -/
abbrev CacheState := String → Option CacheDoc

/-- Modelled from the spec: `readCacheFile` is repository code not under
`src/`; per §4.1 a read is a hit only if the document exists and its age
is strictly less than `maxAgeTicks`, returning the exact bytes written,
and any absence is a miss, never an error. -/
def readCacheFile (cache : CacheState) (name : String) (maxAgeTicks : Nat) :
    Option String :=
  match cache name with
  | some doc => if doc.age < maxAgeTicks then some doc.data else none
  | none => none

/-- Go `DataProvider.GetInstalledFormulae`. -/
def GetInstalledFormulae (cache : CacheState)
    (decode : String → Except String (List Formula))
    (cmd : Except String String) (prefixPath : String) (forceRefresh : Bool) :
    Except String (List Formula) :=
  let cached :=
    if !forceRefresh then
      match readCacheFile cache cacheFileInstalled 10 with
      | some data =>
        match decode data with
        | .ok formulae => some (markFormulaeAsInstalled prefixPath formulae)
        | .error _ => none
      | none => none
    else none
  match cached with
  | some formulae => .ok formulae
  | none =>
    match cmd with
    | .error e => .error e
    | .ok output =>
      match decode output with
      | .error e => .error e
      | .ok formulae => .ok (markFormulaeAsInstalled prefixPath formulae)

/-- Go `DataProvider.GetInstalledCasks`; `listCmd` is
`brew list --cask`, `infoCmd` the subsequent `brew info --json=v2 --cask`
invocation, and `decode` the unmarshalling of the `{casks: [...]}`
response.  Note the two `return []models.Cask{}, nil` arms on command
failure. -/
def GetInstalledCasks (cache : CacheState)
    (decode : String → Except String (List Cask))
    (listCmd : Except String String) (infoCmd : Except String String)
    (forceRefresh : Bool) : Except String (List Cask) :=
  let cached :=
    if !forceRefresh then
      match readCacheFile cache cacheFileInstalledCasks 10 with
      | some data =>
        match decode data with
        | .ok casks => some (markCasksAsInstalled casks)
        | .error _ => none
      | none => none
    else none
  match cached with
  | some casks => .ok casks
  | none =>
    match listCmd with
    | .error _ => .ok []
    | .ok listOutput =>
      let caskNames := goSplit (goTrimSpace listOutput) '\n'
      if caskNames.length = 0 ∨ (caskNames.length = 1 ∧ caskNames.headD "" = "")
      then .ok []
      else
        match infoCmd with
        | .error _ => .ok []
        | .ok infoOutput =>
          match decode infoOutput with
          | .error e => .error e
          | .ok casks => .ok (markCasksAsInstalled casks)

/-- Go `DataProvider.GetRemoteFormulae`. -/
def GetRemoteFormulae (cache : CacheState)
    (decode : String → Except String (List Formula))
    (live : Except String String) (forceRefresh : Bool) :
    Except String (List Formula) :=
  let cached :=
    if !forceRefresh then
      match readCacheFile cache cacheFileFormulae 1000 with
      | some data =>
        match decode data with
        | .ok formulae => if formulae.length > 0 then some formulae else none
        | .error _ => none
      | none => none
    else none
  match cached with
  | some formulae => .ok formulae
  | none =>
    match live with
    | .error e => .error e
    | .ok body =>
      match decode body with
      | .error e => .error e
      | .ok formulae => .ok formulae

/-- Go `DataProvider.GetRemoteCasks`. -/
def GetRemoteCasks (cache : CacheState)
    (decode : String → Except String (List Cask))
    (live : Except String String) (forceRefresh : Bool) :
    Except String (List Cask) :=
  let cached :=
    if !forceRefresh then
      match readCacheFile cache cacheFileCasks 1000 with
      | some data =>
        match decode data with
        | .ok casks => if casks.length > 0 then some casks else none
        | .error _ => none
      | none => none
    else none
  match cached with
  | some casks => .ok casks
  | none =>
    match live with
    | .error e => .error e
    | .ok body =>
      match decode body with
      | .error e => .error e
      | .ok casks => .ok casks

/-- The map built by `GetFormulaeAnalytics` (`result[f.Formula] = f`). -/
def formulaAnalyticsMap (items : List AnalyticsItem) :
    List (String × AnalyticsItem) :=
  items.foldl (fun m f => goMapInsert m f.formula f) []

/-- The map built by `GetCaskAnalytics` (only items with `Cask != ""`). -/
def caskAnalyticsMap (items : List AnalyticsItem) :
    List (String × AnalyticsItem) :=
  items.foldl (fun m c => if c.cask ≠ "" then goMapInsert m c.cask c else m) []

/-- Go `DataProvider.GetFormulaeAnalytics`. -/
def GetFormulaeAnalytics (cache : CacheState)
    (decode : String → Except String Analytics)
    (live : Except String String) (forceRefresh : Bool) :
    Except String (List (String × AnalyticsItem)) :=
  let cached :=
    if !forceRefresh then
      match readCacheFile cache cacheFileAnalytics 100 with
      | some data =>
        match decode data with
        | .ok analytics =>
          if analytics.items.length > 0 then
            some (formulaAnalyticsMap analytics.items)
          else none
        | .error _ => none
      | none => none
    else none
  match cached with
  | some m => .ok m
  | none =>
    match live with
    | .error e => .error e
    | .ok body =>
      match decode body with
      | .error e => .error e
      | .ok analytics => .ok (formulaAnalyticsMap analytics.items)

/-- Go `DataProvider.GetCaskAnalytics`. -/
def GetCaskAnalytics (cache : CacheState)
    (decode : String → Except String Analytics)
    (live : Except String String) (forceRefresh : Bool) :
    Except String (List (String × AnalyticsItem)) :=
  let cached :=
    if !forceRefresh then
      match readCacheFile cache cacheFileCaskAnalytics 100 with
      | some data =>
        match decode data with
        | .ok analytics =>
          if analytics.items.length > 0 then
            some (caskAnalyticsMap analytics.items)
          else none
        | .error _ => none
      | none => none
    else none
  match cached with
  | some m => .ok m
  | none =>
    match live with
    | .error e => .error e
    | .ok body =>
      match decode body with
      | .error e => .error e
      | .ok analytics => .ok (caskAnalyticsMap analytics.items)

/-- Go `DataProvider.GetTapPackages`: partition the wanted entries into
already-known / cached / missing, fetch only the missing ones (`fetched`
is the map `fetchPackagesInfo` returns for a batch, already containing
its one-at-a-time fallback), and synthesize an "unable to load" record
for names the fetch still misses.  The write-back of the result to the
tap cache is a side effect and is elided; the function never returns an
error. -/
def GetTapPackages (entries : List BrewfileEntry)
    (existingPackages : List (String × Package))
    (cache : CacheState) (decodeTapCache : String → Option (List Package))
    (fetched : List String → Bool → List (String × Package))
    (forceRefresh : Bool) : List Package :=
  if entries.length = 0 then []
  else
    let cachedList :=
      if !forceRefresh then
        match readCacheFile cache cacheFileTapPackages 10 with
        | some data =>
          match decodeTapCache data with
          | some packages => packages
          | none => []
        | none => []
      else []
    let cachedPackages := cachedList.foldl (fun m p => goMapInsert m p.name p) []
    let st := entries.foldl
      (fun (st : List Package × List String × List String) entry =>
        let (result, missingCasks, missingFormulae) := st
        match goMapGet existingPackages entry.name with
        | some pkg => (result ++ [pkg], missingCasks, missingFormulae)
        | none =>
          match goMapGet cachedPackages entry.name with
          | some pkg => (result ++ [pkg], missingCasks, missingFormulae)
          | none =>
            if entry.isCask then
              (result, missingCasks ++ [entry.name], missingFormulae)
            else
              (result, missingCasks, missingFormulae ++ [entry.name]))
      ([], [], [])
    let result0 := st.1
    let missingCasks := st.2.1
    let missingFormulae := st.2.2
    let resultC :=
      if missingCasks.length > 0 then
        let f := fetched missingCasks true
        missingCasks.map fun name =>
          match goMapGet f name with
          | some pkg => pkg
          | none =>
            { name := name, displayName := name
              description := "(unable to load package info)"
              type := PackageTypeCask }
      else []
    let resultF :=
      if missingFormulae.length > 0 then
        let f := fetched missingFormulae false
        missingFormulae.map fun name =>
          match goMapGet f name with
          | some pkg => pkg
          | none =>
            { name := name, displayName := name
              description := "(unable to load package info)"
              type := PackageTypeFormula }
      else []
    result0 ++ resultC ++ resultF

/-! ## Manifest parsing (`parseBrewfileWithTaps`) -/

/-- The tap-line extraction: first quote, then the next quote after it. -/
def extractQuotedTap (line : List Char) : Option String :=
  let start := goIndexOfChar line '"'
  if start ≠ -1 then
    let after := line.drop (start.toNat + 1)
    let e := goIndexOfChar after '"'
    if e ≠ -1 then some (String.mk (after.take e.toNat)) else none
  else none

/-- The package-line extraction: text between the first and the last
quote on the line (tolerant of trailing comments after the close quote). -/
def extractQuotedFirstLast (line : List Char) : Option String :=
  let start := goIndexOfChar line '"'
  let e := goLastIndexOfChar line '"'
  if start ≠ -1 ∧ e ≠ -1 ∧ start < e then
    some (String.mk ((line.drop (start.toNat + 1)).take (e.toNat - start.toNat - 1)))
  else none

/-- One iteration of the line loop of `parseBrewfileWithTaps`: trim, skip
blank and `#` lines, then try the four directive prefixes in order (a
line matching none of them is ignored). -/
def parseBrewfileLine (acc : BrewfileResult) (rawLine : List Char) :
    BrewfileResult :=
  let line := trimSpaceList rawLine
  if line.isEmpty || goStartsWithList line "#".toList then acc
  else
    let acc :=
      if goStartsWithList line "tap ".toList then
        match extractQuotedTap line with
        | some tapName => { acc with taps := acc.taps ++ [tapName] }
        | none => acc
      else acc
    let acc :=
      if goStartsWithList line "brew ".toList then
        match extractQuotedFirstLast line with
        | some packageName =>
          { acc with packages := acc.packages ++
              [{ name := packageName, isCask := false }] }
        | none => acc
      else acc
    let acc :=
      if goStartsWithList line "cask ".toList then
        match extractQuotedFirstLast line with
        | some packageName =>
          { acc with packages := acc.packages ++
              [{ name := packageName, isCask := true }] }
        | none => acc
      else acc
    if goStartsWithList line "flatpak ".toList then
      match extractQuotedFirstLast line with
      | some packageName =>
        { acc with packages := acc.packages ++
            [{ name := packageName, isFlatpak := true }] }
      | none => acc
    else acc

/-- Go `parseBrewfileWithTaps`, applied to the text of the manifest file
(the `os.ReadFile` step is the caller's; a read failure is the fatal
error path and never reaches the parser). -/
def parseBrewfileWithTaps (data : String) : BrewfileResult :=
  (splitCharList '\n' data.toList).foldl parseBrewfileLine {}

/-! ## Query pipeline (`search` / `applyFilter`) -/

/-- Go `FilterType` (`input.go`). -/
inductive FilterType where
  | FilterNone
  | FilterInstalled
  | FilterOutdated
  | FilterLeaves
  | FilterCasks
  deriving DecidableEq, Repr

/-- Go `AppService.applyFilter`. -/
def applyFilter (activeFilter : FilterType) (sourceList : List Package) :
    List Package :=
  match activeFilter with
  | .FilterNone => sourceList
  | _ =>
    sourceList.filter fun info =>
      match activeFilter with
      | .FilterNone => false
      | .FilterInstalled => info.locallyInstalled
      | .FilterOutdated => info.locallyInstalled && info.outdated
      | .FilterLeaves => info.locallyInstalled && info.installedOnRequest
      | .FilterCasks => info.type == PackageTypeCask

/-- The analytics-rank comparison `sort.Slice` is given in `search`
(rank 0 sorts last), as the non-strict total order a correct sort
realises: `rankLe a b = !(less b a)`. -/
def rankLe (a b : Package) : Bool :=
  if b.analytics90dRank = 0 then true
  else if a.analytics90dRank = 0 then false
  else decide (a.analytics90dRank ≤ b.analytics90dRank)

/-- The kind-then-name comparison used when `sortByType` is active
(Go compares the `PackageType` strings, then the lower-cased names). -/
def typeNameLe (a b : Package) : Bool :=
  if a.type = b.type then decide (goToLower a.name ≤ goToLower b.name)
  else decide (a.type ≤ b.type)

/-- The match predicate of the search loop: case-insensitive substring
match against name or description. -/
def searchMatches (searchTextLower : String) (info : Package) : Bool :=
  goContains (goToLower info.name) searchTextLower ||
    goContains (goToLower info.description) searchTextLower

/-- Shared shape of the dedup-append loops in `search` and
`loadBrewfilePackages`: walk `items`, and for each item passing `keep`
whose key is not yet in `found`, append `tf item` and record the key. -/
def guardedAppend {α : Type} (keep : α → Bool) (keyOf : α → String)
    (tf : α → Package) :
    List α → List Package × List String → List Package × List String
  | [], st => st
  | x :: xs, (acc, found) =>
    if keep x && !(found.contains (keyOf x)) then
      guardedAppend keep keyOf tf xs (acc ++ [tf x], keyOf x :: found)
    else
      guardedAppend keep keyOf tf xs (acc, found)

/-- Go `AppService.search` as a pure function of the source list and the
control state it reads (`activeFilter`, `sortByType`); the Brewfile-mode
source selection is the caller passing `brewfilePackages` as
`sourceList`, and `scrollToTop` only affects rendering.  Both
`sort.Slice` calls of the Go code are kept (the rank sort inside the
non-empty-search branch, then the final rank or kind sort). -/
def search (sourceList : List Package) (activeFilter : FilterType)
    (sortByType : Bool) (searchText : String) : List Package :=
  let src := applyFilter activeFilter sourceList
  let filteredList :=
    if searchText = "" then src
    else
      let searchTextLower := goToLower searchText
      let matched :=
        (guardedAppend (searchMatches searchTextLower) (fun p => p.name) id
          src ([], [])).1
      sortByLe rankLe matched
  if sortByType then sortByLe typeNameLe filteredList
  else if searchText ≠ "" then sortByLe rankLe filteredList
  else filteredList

/-! ## Batch mutation (`InputService.processSelectedPackages`) -/

/-- Observable per-item events of a batch run: the `[tag] verb name...`
log line announcing item `i` of `total` (with the `[i/total]` counter the
notifier shows), then either the `[ERROR] Failed to ...` line or the
`[SUCCESS] ... processed successfully` line. -/
inductive BatchEvent where
  | started (index total : Nat) (name : String)
  | failed (name : String)
  | succeeded (name : String)
  deriving DecidableEq, Repr

/-- The selection-gathering preamble of `processSelectedPackages`
(`if row > 0 && row-1 < len(filteredPackages)`). -/
def selectPackages (selectedRows : List Nat)
    (filteredPackages : List Package) : List Package :=
  selectedRows.foldl
    (fun acc row =>
      if h : 0 < row ∧ row - 1 < filteredPackages.length then
        acc ++ [filteredPackages.get ⟨row - 1, h.2⟩]
      else acc) []

/-- Go `InputService.processSelectedPackages` after the user confirms the
modal: run `action` on every selected package in order, logging a failure
without aborting the remaining items, then report the final
`Completed! Processed total packages` summary (`none` when the early
returns fire and no batch runs). -/
def processSelectedPackages (selectedRows : List Nat)
    (filteredPackages : List Package)
    (action : Package → Except String Unit) :
    List BatchEvent × Option Nat :=
  if selectedRows.length = 0 then ([], none)
  else
    let packages := selectPackages selectedRows filteredPackages
    if packages.length = 0 then ([], none)
    else
      let total := packages.length
      let run := packages.foldl
        (fun (st : List BatchEvent × Nat) pkg =>
          let events := st.1 ++ [BatchEvent.started (st.2 + 1) total pkg.name]
          match action pkg with
          | .error _ => (events ++ [BatchEvent.failed pkg.name], st.2 + 1)
          | .ok _ => (events ++ [BatchEvent.succeeded pkg.name], st.2 + 1))
        ([], 0)
      (run.1, some total)

/-! ## Brewfile package loading (`loadBrewfilePackages`) -/

/-- The placeholder synthesized for a tap entry when `usePlaceholders`
is set. -/
def placeholderPackage (entry : BrewfileEntry) : Package :=
  { name := entry.name
    displayName := entry.name
    description := "Waiting for tap installation..."
    type := if entry.isCask then PackageTypeCask else PackageTypeFormula
    locallyInstalled := false }

/-- The installed-status re-stamp applied to every package admitted into
the Brewfile list, from the live `brew list` name lookups. -/
def stampInstalled (installedCasks installedFormulae : String → Bool)
    (pkg : Package) : Package :=
  if pkg.type == PackageTypeCask then
    { pkg with locallyInstalled := installedCasks pkg.name }
  else
    { pkg with locallyInstalled := installedFormulae pkg.name }

/-- The Brewfile-entry map of `loadBrewfilePackages`
(`packageMap[entry.Name] = type`). -/
def brewfilePackageMap (entries : List BrewfileEntry) :
    List (String × PackageType) :=
  entries.foldl
    (fun m entry =>
      goMapInsert m entry.name
        (if entry.isCask then PackageTypeCask else PackageTypeFormula)) []

/-- The admission test of the catalog pass of `loadBrewfilePackages`:
the package's name is a Brewfile entry of the same kind. -/
def brewfileKeep (packageMap : List (String × PackageType)) (pkg : Package) :
    Bool :=
  match goMapGet packageMap pkg.name with
  | some pkgType => pkgType == pkg.type
  | none => false

/-- Go `AppService.loadBrewfilePackages` as a pure function:
`brewfileData` is the manifest text, `packages` the current catalog
(`*s.packages`), `installedCasks`/`installedFormulae` the two live
`brew list` name sets, `flatpakPackages` the `GetFlatpakPackages` result
(`none` when the flatpak binary is missing, in which case the code only
prints a warning), and `cache`/`decodeTapCache`/`fetched` the tap-fetch
collaborators passed through to `GetTapPackages`. -/
def loadBrewfilePackages (brewfileData : String) (packages : List Package)
    (installedCasks installedFormulae : String → Bool)
    (flatpakPackages : Option (List Package))
    (cache : CacheState) (decodeTapCache : String → Option (List Package))
    (fetched : List String → Bool → List (String × Package))
    (usePlaceholders : Bool) : List Package :=
  let result := parseBrewfileWithTaps brewfileData
  let st1 := guardedAppend
    (brewfileKeep (brewfilePackageMap result.packages))
    (fun p => p.name) (stampInstalled installedCasks installedFormulae)
    packages ([], [])
  let st2 :=
    match flatpakPackages with
    | none => st1
    | some fps => guardedAppend (fun _ => true) (fun p => p.name) id fps st1
  let tapEntries := result.packages.filter fun entry =>
    !(st2.2.contains entry.name)
  let final :=
    if tapEntries.length > 0 then
      let tapPackages :=
        if usePlaceholders then tapEntries.map placeholderPackage
        else
          let existingPackages :=
            packages.foldl (fun m p => goMapInsert m p.name p) []
          GetTapPackages tapEntries existingPackages cache decodeTapCache
            fetched false
      (guardedAppend (fun _ => true) (fun p => p.name)
        (stampInstalled installedCasks installedFormulae) tapPackages st2).1
    else st2.1
  sortByLe nameLe final

/-! ## Auxiliary notions used by the statements -/

/-- The search-ranking order as a proposition: rank `0` ("unranked")
sorts after every nonzero rank, nonzero ranks sort ascending. -/
def rankOrder (a b : Package) : Prop :=
  b.analytics90dRank = 0 ∨
    (a.analytics90dRank ≠ 0 ∧ a.analytics90dRank ≤ b.analytics90dRank)

/-- Well-formedness of a name-keyed package map: keys are distinct and
every value carries its own key. -/
def MapWF {β : Type} (keyOf : β → String) (m : List (String × β)) : Prop :=
  (m.map Prod.fst).Nodup ∧ ∀ kv ∈ m, keyOf kv.2 = kv.1

/-- The three packages of the search-ranking example: ranks 5, 0, 2, all
matching the search term `mat` through their descriptions. -/
def pkgA : Package := { name := "A", description := "match", analytics90dRank := 5 }

/-- Rank-0 ("unranked") package of the search-ranking example. -/
def pkgB : Package := { name := "B", description := "match", analytics90dRank := 0 }

/-- Rank-2 package of the search-ranking example. -/
def pkgC : Package := { name := "C", description := "match", analytics90dRank := 2 }

/-! ## Supporting lemmas: Go maps -/

theorem goMapGet_insert_self {β : Type} (m : List (String × β)) (k : String) (v : β) :
    goMapGet (goMapInsert m k v) k = some v := by
  induction m with
  | nil => simp [goMapInsert, goMapGet]
  | cons hd tl ih =>
    obtain ⟨k', v'⟩ := hd
    by_cases h : k' = k
    · simp [goMapInsert, goMapGet, h]
    · simp [goMapInsert, goMapGet, h, ih]

theorem goMapGet_insert_ne {β : Type} (m : List (String × β)) (k k' : String) (v : β)
    (h : k ≠ k') : goMapGet (goMapInsert m k v) k' = goMapGet m k' := by
  induction m with
  | nil => simp [goMapInsert, goMapGet, h]
  | cons hd tl ih =>
    obtain ⟨k₀, v₀⟩ := hd
    by_cases h0 : k₀ = k
    · subst h0
      simp [goMapInsert, goMapGet, h]
    · simp [goMapInsert, goMapGet, h0, ih]

/-- A fold whose every step preserves the value of the map at `n`
preserves it overall. -/
theorem goMapGet_foldl_pres {α β : Type}
    (step : List (String × β) → α → List (String × β)) (n : String)
    (o : Option β) (l : List α)
    (h : ∀ m x, x ∈ l → goMapGet m n = o → goMapGet (step m x) n = o) :
    ∀ m, goMapGet m n = o → goMapGet (l.foldl step m) n = o := by
  induction l with
  | nil => intro m hm; simpa using hm
  | cons x xs ih =>
    intro m hm
    simp only [List.foldl_cons]
    exact ih (fun m' y hy => h m' y (List.mem_cons_of_mem _ hy))
      (step m x) (h m x (List.mem_cons_self _ _) hm)

/-- After a pass of unconditional insertions, the map holds the value of
the unique element keyed `n`. -/
theorem goMapGet_foldl_insert_unique {α β : Type} (key : α → String)
    (val : α → β) (n : String) (r : α) :
    ∀ (l : List α) (m : List (String × β)),
      l.filter (fun x => key x == n) = [r] →
      goMapGet (l.foldl (fun m x => goMapInsert m (key x) (val x)) m) n =
        some (val r) := by
  intro l
  induction l with
  | nil => intro m h; simp at h
  | cons x xs ih =>
    intro m h
    rw [List.filter_cons] at h
    by_cases hx : key x = n
    · simp only [hx, beq_self_eq_true, if_true] at h
      obtain ⟨hxr, hrest⟩ := List.cons_eq_cons.mp h
      subst hxr
      simp only [List.foldl_cons]
      refine goMapGet_foldl_pres _ n (some (val x)) xs ?_ _ ?_
      · intro m' y hy hm'
        have hyn : key y ≠ n := by
          intro hkey
          have := List.filter_eq_nil_iff.mp hrest y hy
          simp [hkey] at this
        rw [goMapGet_insert_ne _ _ _ _ hyn]
        exact hm'
      · rw [hx]; exact goMapGet_insert_self _ _ _
    · simp only [beq_iff_eq, hx, if_false] at h
      simp only [List.foldl_cons]
      have hxn : key x ≠ n := hx
      -- the head insertion does not touch key n, and the tail gives the result
      have := ih (goMapInsert m (key x) (val x)) h
      exact this

/-- After a pass of guarded insertions (skip, or insert only when the key
is absent), the map holds the value of the unique element keyed `n`,
provided that element is not skipped and `n` was previously absent. -/
theorem goMapGet_foldl_condInsert_unique {α β : Type} (skip : α → Bool)
    (key : α → String) (val : α → β) (n : String) (r : α)
    (hskip : skip r = false) :
    ∀ (l : List α) (m : List (String × β)),
      l.filter (fun x => key x == n) = [r] →
      goMapGet m n = none →
      goMapGet (l.foldl
        (fun m x =>
          if skip x then m
          else if (goMapGet m (key x)).isSome then m
          else goMapInsert m (key x) (val x)) m) n = some (val r) := by
  intro l
  induction l with
  | nil => intro m h _; simp at h
  | cons x xs ih =>
    intro m h hm
    rw [List.filter_cons] at h
    by_cases hx : key x = n
    · simp only [hx, beq_self_eq_true, if_true] at h
      obtain ⟨hxr, hrest⟩ := List.cons_eq_cons.mp h
      subst hxr
      simp only [List.foldl_cons]
      have hstep : (if skip x then m
          else if (goMapGet m (key x)).isSome then m
          else goMapInsert m (key x) (val x)) = goMapInsert m (key x) (val x) := by
        rw [hskip, hx, hm]
        simp
      rw [hstep]
      refine goMapGet_foldl_pres _ n (some (val x)) xs ?_ _ ?_
      · intro m' y hy hm'
        have hyn : key y ≠ n := by
          intro hkey
          have := List.filter_eq_nil_iff.mp hrest y hy
          simp [hkey] at this
        by_cases hs : skip y
        · simp [hs, hm']
        · by_cases hins : (goMapGet m' (key y)).isSome
          · simp [hs, hins, hm']
          · have hred : (if skip y = true then m'
                else if (goMapGet m' (key y)).isSome = true then m'
                else goMapInsert m' (key y) (val y)) =
                goMapInsert m' (key y) (val y) := by
              simp [hs, hins]
            rw [hred, goMapGet_insert_ne _ _ _ _ hyn]
            exact hm'
      · rw [hx]; exact goMapGet_insert_self _ _ _
    · simp only [beq_iff_eq, hx, if_false] at h
      simp only [List.foldl_cons]
      have hxn : key x ≠ n := hx
      have hstep : goMapGet (if skip x then m
          else if (goMapGet m (key x)).isSome then m
          else goMapInsert m (key x) (val x)) n = none := by
        by_cases hs : skip x
        · simp [hs, hm]
        · by_cases hins : (goMapGet m (key x)).isSome
          · simp [hs, hins, hm]
          · have hred : (if skip x = true then m
                else if (goMapGet m (key x)).isSome = true then m
                else goMapInsert m (key x) (val x)) =
                goMapInsert m (key x) (val x) := by
              simp [hs, hins]
            rw [hred, goMapGet_insert_ne _ _ _ _ hxn]
            exact hm
      exact ih _ h hstep

/-- A lookup miss means no binding carries the key at all. -/
theorem goMapGet_eq_none_iff {β : Type} (m : List (String × β)) (n : String) :
    goMapGet m n = none ↔ ∀ kv ∈ m, kv.1 ≠ n := by
  induction m with
  | nil => simp [goMapGet]
  | cons hd tl ih =>
    obtain ⟨k, v⟩ := hd
    by_cases h : k = n
    · simp [goMapGet, h]
    · simp [goMapGet, h, ih]

/-- Membership in an inserted map comes from the old map or is the new
binding. -/
theorem mem_goMapInsert_cases {β : Type} (m : List (String × β)) (k : String)
    (v : β) (kv : String × β) (h : kv ∈ goMapInsert m k v) :
    kv ∈ m ∨ kv = (k, v) := by
  induction m with
  | nil => simp [goMapInsert] at h; simp [h]
  | cons hd tl ih =>
    obtain ⟨k0, v0⟩ := hd
    by_cases h0 : k0 = k
    · simp only [goMapInsert, h0, if_true] at h
      rcases List.mem_cons.mp h with h1 | h1
      · right; exact h1
      · left; exact List.mem_cons_of_mem _ h1
    · simp only [goMapInsert, h0, if_false] at h
      rcases List.mem_cons.mp h with h1 | h1
      · left; exact h1 ▸ List.mem_cons_self _ _
      · rcases ih h1 with h2 | h2
        · left; exact List.mem_cons_of_mem _ h2
        · right; exact h2

/-- Keys after insertion are old keys or the inserted key. -/
theorem mem_keys_goMapInsert {β : Type} (m : List (String × β)) (k : String)
    (v : β) (a : String) (h : a ∈ (goMapInsert m k v).map Prod.fst) :
    a ∈ m.map Prod.fst ∨ a = k := by
  obtain ⟨kv, hkv, rfl⟩ := List.mem_map.mp h
  rcases mem_goMapInsert_cases m k v kv hkv with h1 | h1
  · left; exact List.mem_map_of_mem _ h1
  · right; rw [h1]

/-- Insertion of a self-keyed value preserves map well-formedness. -/
theorem MapWF_insert {β : Type} (keyOf : β → String) (m : List (String × β))
    (k : String) (v : β) (hwf : MapWF keyOf m) (hv : keyOf v = k) :
    MapWF keyOf (goMapInsert m k v) := by
  induction m with
  | nil =>
    refine ⟨by simp [goMapInsert], ?_⟩
    intro kv hkv
    simp only [goMapInsert, List.mem_singleton] at hkv
    rw [hkv]; exact hv
  | cons hd tl ih =>
    obtain ⟨k0, v0⟩ := hd
    obtain ⟨hnd, hinv⟩ := hwf
    simp only [List.map_cons, List.nodup_cons] at hnd
    have hwf0 : MapWF keyOf tl := ⟨hnd.2, fun kv hkv => hinv kv (List.mem_cons_of_mem _ hkv)⟩
    by_cases h0 : k0 = k
    · subst h0
      simp only [goMapInsert, if_true]
      refine ⟨?_, ?_⟩
      · simpa using hnd
      · intro kv hkv
        rcases List.mem_cons.mp hkv with h1 | h1
        · rw [h1]; exact hv
        · exact hinv kv (List.mem_cons_of_mem _ h1)
    · simp only [goMapInsert, h0, if_false]
      obtain ⟨hnd', hinv'⟩ := ih hwf0
      refine ⟨?_, ?_⟩
      · simp only [List.map_cons, List.nodup_cons]
        refine ⟨?_, hnd'⟩
        intro hmem
        rcases mem_keys_goMapInsert tl k v k0 hmem with h1 | h1
        · exact hnd.1 h1
        · exact h0 h1
      · intro kv hkv
        rcases List.mem_cons.mp hkv with h1 | h1
        · rw [h1]; exact hinv (k0, v0) (List.mem_cons_self _ _)
        · exact hinv' kv h1

/-- Well-formedness survives a fold whose steps preserve it. -/
theorem MapWF_foldl {α β : Type} (keyOf : β → String)
    (step : List (String × β) → α → List (String × β)) (l : List α)
    (h : ∀ m x, MapWF keyOf m → MapWF keyOf (step m x)) :
    ∀ m, MapWF keyOf m → MapWF keyOf (l.foldl step m) := by
  induction l with
  | nil => intro m hm; simpa using hm
  | cons x xs ih =>
    intro m hm
    simp only [List.foldl_cons]
    exact ih (step m x) (h m x hm)

/-- In a well-formed map, a lookup hit pins down the values filtered by
that key. -/
theorem values_filter_of_get_some {β : Type} (keyOf : β → String) :
    ∀ (m : List (String × β)) (n : String) (v : β), MapWF keyOf m →
      goMapGet m n = some v →
      (m.map Prod.snd).filter (fun x => keyOf x == n) = [v] := by
  intro m
  induction m with
  | nil => intro n v _ hget; simp [goMapGet] at hget
  | cons hd tl ih =>
    intro n v hwf hget
    obtain ⟨k0, v0⟩ := hd
    obtain ⟨hnd, hinv⟩ := hwf
    simp only [List.map_cons, List.nodup_cons] at hnd
    have hk0 : keyOf v0 = k0 := hinv (k0, v0) (List.mem_cons_self _ _)
    by_cases h0 : k0 = n
    · subst h0
      simp only [goMapGet, if_true] at hget
      obtain rfl : v0 = v := by simpa using hget
      simp only [List.map_cons, List.filter_cons, hk0, beq_self_eq_true, if_true]
      have htl : (tl.map Prod.snd).filter (fun x => keyOf x == k0) = [] := by
        apply List.filter_eq_nil_iff.mpr
        intro a ha
        obtain ⟨kv, hkv, rfl⟩ := List.mem_map.mp ha
        have := hinv kv (List.mem_cons_of_mem _ hkv)
        rw [this]
        simp only [beq_iff_eq]
        intro hcontra
        exact hnd.1 (hcontra ▸ List.mem_map_of_mem Prod.fst hkv)
      rw [htl]
    · simp only [goMapGet, h0, if_false] at hget
      have hwf' : MapWF keyOf tl :=
        ⟨hnd.2, fun kv hkv => hinv kv (List.mem_cons_of_mem _ hkv)⟩
      simp only [List.map_cons, List.filter_cons]
      have : (keyOf v0 == n) = false := by
        simp only [beq_eq_false_iff_ne, ne_eq, hk0]
        exact h0
      rw [this]
      simp only [Bool.false_eq_true, if_false]
      exact ih n v hwf' hget

/-- In a self-keyed map, a lookup miss means no value carries the key. -/
theorem values_filter_of_get_none {β : Type} (keyOf : β → String)
    (m : List (String × β)) (n : String)
    (hinv : ∀ kv ∈ m, keyOf kv.2 = kv.1) (hget : goMapGet m n = none) :
    (m.map Prod.snd).filter (fun x => keyOf x == n) = [] := by
  apply List.filter_eq_nil_iff.mpr
  intro a ha
  obtain ⟨kv, hkv, rfl⟩ := List.mem_map.mp ha
  rw [hinv kv hkv]
  simp only [beq_iff_eq]
  exact (goMapGet_eq_none_iff m n).mp hget kv hkv

/-! ## Supporting lemmas: field preservation -/

theorem attachAnalytics_name (a : String → Option AnalyticsItem) (k : String)
    (p : Package) : (attachAnalytics a k p).name = p.name := by
  unfold attachAnalytics
  cases a k with
  | none => rfl
  | some item => by_cases h : item.number > 0 <;> simp [h]

theorem attachAnalytics_locallyInstalled (a : String → Option AnalyticsItem)
    (k : String) (p : Package) :
    (attachAnalytics a k p).locallyInstalled = p.locallyInstalled := by
  unfold attachAnalytics
  cases a k with
  | none => rfl
  | some item => by_cases h : item.number > 0 <;> simp [h]

theorem formulaPackage_name (a : String → Option AnalyticsItem) (f : Formula) :
    (formulaPackage a f).name = f.name := by
  unfold formulaPackage
  rw [attachAnalytics_name]
  rfl

theorem caskPackage_name (a : String → Option AnalyticsItem) (c : Cask) :
    (caskPackage a c).name = c.token := by
  unfold caskPackage
  rw [attachAnalytics_name]
  rfl

theorem formulaPackage_locallyInstalled (a : String → Option AnalyticsItem)
    (f : Formula) :
    (formulaPackage a f).locallyInstalled = f.locallyInstalled := by
  unfold formulaPackage
  rw [attachAnalytics_locallyInstalled]
  rfl

theorem caskPackage_locallyInstalled (a : String → Option AnalyticsItem)
    (c : Cask) :
    (caskPackage a c).locallyInstalled = c.locallyInstalled := by
  unfold caskPackage
  rw [attachAnalytics_locallyInstalled]
  rfl

theorem MapWF_insertRemoteFormulae (isLinux : Bool)
    (fA : String → Option AnalyticsItem) (rF : List Formula) :
    MapWF (fun p => p.name) (insertRemoteFormulae isLinux fA rF) := by
  unfold insertRemoteFormulae
  apply MapWF_foldl _ _ _ ?_ [] ⟨by simp, by simp⟩
  intro m f hm
  by_cases hs : isLinux && linuxSkipFormula f
  · simpa [hs] using hm
  · by_cases hins : (goMapGet m f.name).isSome
    · simpa [hs, hins] using hm
    · have hred : (if isLinux && linuxSkipFormula f then m
          else if (goMapGet m f.name).isSome then m
          else goMapInsert m f.name (formulaPackage fA f)) =
          goMapInsert m f.name (formulaPackage fA f) := by
        simp [hs, hins]
      rw [hred]
      exact MapWF_insert _ m f.name _ hm (formulaPackage_name fA f)

theorem MapWF_insertInstalledFormulae (fA : String → Option AnalyticsItem)
    (iF : List Formula) (m : List (String × Package))
    (hm : MapWF (fun p => p.name) m) :
    MapWF (fun p => p.name) (insertInstalledFormulae fA iF m) := by
  unfold insertInstalledFormulae
  apply MapWF_foldl _ _ _ ?_ m hm
  intro m' f hm'
  exact MapWF_insert _ m' f.name _ hm' (formulaPackage_name fA f)

theorem MapWF_insertRemoteCasks (cA : String → Option AnalyticsItem)
    (rC : List Cask) (m : List (String × Package))
    (hm : MapWF (fun p => p.name) m) :
    MapWF (fun p => p.name) (insertRemoteCasks cA rC m) := by
  unfold insertRemoteCasks
  apply MapWF_foldl _ _ _ ?_ m hm
  intro m' c hm'
  by_cases hins : (goMapGet m' c.token).isSome
  · simpa [hins] using hm'
  · have hred : (if (goMapGet m' c.token).isSome then m'
        else goMapInsert m' c.token (caskPackage cA c)) =
        goMapInsert m' c.token (caskPackage cA c) := by
      simp [hins]
    rw [hred]
    exact MapWF_insert _ m' c.token _ hm' (caskPackage_name cA c)

theorem MapWF_insertInstalledCasks (cA : String → Option AnalyticsItem)
    (iC : List Cask) (m : List (String × Package))
    (hm : MapWF (fun p => p.name) m) :
    MapWF (fun p => p.name) (insertInstalledCasks cA iC m) := by
  unfold insertInstalledCasks
  apply MapWF_foldl _ _ _ ?_ m hm
  intro m' c hm'
  exact MapWF_insert _ m' c.token _ hm' (caskPackage_name cA c)

/-- The map `GetPackages` builds is well-formed: distinct keys, each value
named by its key. -/
theorem MapWF_buildPackageMap (rF iF : List Formula)
    (fA : String → Option AnalyticsItem) (rC iC : List Cask)
    (cA : String → Option AnalyticsItem) (isLinux : Bool) :
    MapWF (fun p => p.name) (buildPackageMap rF iF fA rC iC cA isLinux) := by
  unfold buildPackageMap
  apply MapWF_insertInstalledCasks
  by_cases hl : isLinux
  · rw [if_neg (by simp [hl])]
    exact MapWF_insertInstalledFormulae _ _ _ (MapWF_insertRemoteFormulae _ _ _)
  · rw [if_pos (by simp [hl])]
    exact MapWF_insertRemoteCasks _ _ _
      (MapWF_insertInstalledFormulae _ _ _ (MapWF_insertRemoteFormulae _ _ _))

/-! ## Supporting lemmas: the sort orders -/

theorem nameLe_trans (a b c : Package) (hab : nameLe a b = true)
    (hbc : nameLe b c = true) : nameLe a c = true := by
  unfold nameLe at *
  simp only [decide_eq_true_eq] at *
  exact le_trans hab hbc

theorem nameLe_total (a b : Package) : (nameLe a b || nameLe b a) = true := by
  unfold nameLe
  rcases le_total a.name b.name with h | h <;> simp [h]

theorem rankLe_iff (a b : Package) : rankLe a b = true ↔ rankOrder a b := by
  unfold rankLe rankOrder
  by_cases hb : b.analytics90dRank = 0
  · simp [hb]
  · by_cases ha : a.analytics90dRank = 0
    · simp [ha, hb]
    · simp [ha, hb]

theorem rankLe_trans (a b c : Package) (hab : rankLe a b = true)
    (hbc : rankLe b c = true) : rankLe a c = true := by
  rw [rankLe_iff] at *
  rcases hbc with hc | ⟨hb, hbc⟩
  · exact Or.inl hc
  · rcases hab with hb' | ⟨ha, hab⟩
    · exact absurd hb' hb
    · exact Or.inr ⟨ha, le_trans hab hbc⟩

theorem rankLe_total (a b : Package) : (rankLe a b || rankLe b a) = true := by
  unfold rankLe
  by_cases hb : b.analytics90dRank = 0
  · simp [hb]
  · by_cases ha : a.analytics90dRank = 0
    · simp [ha, hb]
    · rcases le_total a.analytics90dRank b.analytics90dRank with h | h <;>
        simp [ha, hb, h]

/-! ## Supporting lemmas: the insertion sort -/

theorem insertSorted_perm {α : Type} (le : α → α → Bool) (x : α) (l : List α) :
    (insertSorted le x l).Perm (x :: l) := by
  induction l with
  | nil => simp [insertSorted]
  | cons y ys ih =>
    unfold insertSorted
    by_cases h : le x y
    · simp [h]
    · simp only [h, Bool.false_eq_true, if_false]
      exact (ih.cons y).trans (List.Perm.swap x y ys)

theorem sortByLe_perm {α : Type} (le : α → α → Bool) (l : List α) :
    (sortByLe le l).Perm l := by
  induction l with
  | nil => simp [sortByLe]
  | cons x xs ih =>
    have : sortByLe le (x :: xs) = insertSorted le x (sortByLe le xs) := rfl
    rw [this]
    exact (insertSorted_perm le x (sortByLe le xs)).trans (ih.cons x)

theorem insertSorted_sorted {α : Type} (le : α → α → Bool)
    (htrans : ∀ a b c, le a b = true → le b c = true → le a c = true)
    (htotal : ∀ a b, (le a b || le b a) = true) (x : α) (l : List α)
    (hl : l.Pairwise (fun a b => le a b = true)) :
    (insertSorted le x l).Pairwise (fun a b => le a b = true) := by
  induction l with
  | nil => simp [insertSorted]
  | cons y ys ih =>
    rcases List.pairwise_cons.mp hl with ⟨hy, hys⟩
    unfold insertSorted
    by_cases h : le x y
    · simp only [h, if_true]
      apply List.pairwise_cons.mpr
      refine ⟨?_, hl⟩
      intro b hb
      rcases List.mem_cons.mp hb with rfl | hb
      · exact h
      · exact htrans x y b h (hy b hb)
    · simp only [h, Bool.false_eq_true, if_false]
      apply List.pairwise_cons.mpr
      constructor
      · intro b hb
        have hb' := (insertSorted_perm le x ys).mem_iff.mp hb
        rcases List.mem_cons.mp hb' with hbx | hb'
        · rw [hbx]
          have := htotal x y
          simp only [h, Bool.false_or] at this
          exact this
        · exact hy b hb'
      · exact ih hys

theorem sortByLe_sorted {α : Type} (le : α → α → Bool)
    (htrans : ∀ a b c, le a b = true → le b c = true → le a c = true)
    (htotal : ∀ a b, (le a b || le b a) = true) (l : List α) :
    (sortByLe le l).Pairwise (fun a b => le a b = true) := by
  induction l with
  | nil => simp [sortByLe]
  | cons x xs ih =>
    have : sortByLe le (x :: xs) = insertSorted le x (sortByLe le xs) := rfl
    rw [this]
    exact insertSorted_sorted le htrans htotal x _ ih

theorem sortByLe_filter_singleton {α : Type} (le : α → α → Bool) (l : List α)
    (p : α → Bool) (v : α) (h : l.filter p = [v]) :
    (sortByLe le l).filter p = [v] := by
  apply List.perm_singleton.mp
  have h1 := (sortByLe_perm le l).filter p
  rw [h] at h1
  exact h1

theorem sortByLe_filter_nil {α : Type} (le : α → α → Bool) (l : List α)
    (p : α → Bool) (h : l.filter p = []) : (sortByLe le l).filter p = [] := by
  apply List.perm_nil.mp
  have h1 := (sortByLe_perm le l).filter p
  rw [h] at h1
  exact h1

/-! ## Claim C10 -/

/-- C10: every `Package` built from a cask has its installed-on-request
flag set to `true` unconditionally, so the leaves filter
(installed AND installed-on-request) admits every locally installed
cask package present in the source list. -/
theorem caskAlwaysOnRequest_leavesAdmitsCasks :
    (∀ c : Cask, (NewPackageFromCask c).installedOnRequest = true) ∧
    ∀ (src : List Package) (c : Cask), c.locallyInstalled = true →
      NewPackageFromCask c ∈ src →
      NewPackageFromCask c ∈ applyFilter .FilterLeaves src := by
  constructor
  · intro c; rfl
  · intro src c hinst hmem
    unfold applyFilter
    apply List.mem_filter.mpr
    refine ⟨hmem, ?_⟩
    simp [NewPackageFromCask, hinst]

/-- Witness for C10 at a concrete installed cask. -/
theorem caskAlwaysOnRequest_leavesAdmitsCasks_witness :
    NewPackageFromCask { token := "iterm2", locallyInstalled := true } ∈
      applyFilter .FilterLeaves
        [NewPackageFromCask { token := "iterm2", locallyInstalled := true }] :=
  caskAlwaysOnRequest_leavesAdmitsCasks.2 _
    { token := "iterm2", locallyInstalled := true } rfl
    (List.mem_singleton.mpr rfl)

/-! ## Claim C7 -/

/-- C7: parsing the five-line example manifest yields exactly one tap
`foo/bar` and three package entries `wget` (formula: neither flag),
`iterm2` (cask: `isCask`), `org.gimp.GIMP` (sandboxed app: `isFlatpak`);
the comment line contributes nothing. -/
theorem brewfileRoundTrip :
    parseBrewfileWithTaps
        "tap \"foo/bar\"\nbrew \"wget\"\ncask \"iterm2\"\n# comment\nflatpak \"org.gimp.GIMP\"" =
      { taps := ["foo/bar"],
        packages := [{ name := "wget" }, { name := "iterm2", isCask := true },
                     { name := "org.gimp.GIMP", isFlatpak := true }] } := by
  decide

/-! ## Claim C6 -/

/-- C6: with non-empty search text and kind-sort inactive, the search
output is sorted by popularity rank ascending with rank 0 ("unranked")
after every nonzero rank, and is a permutation of the deduplicated
matches; in particular the example packages with ranks 5, 0 and 2 come
out as C, A, B. -/
theorem searchRankOrdering :
    (∀ (sourceList : List Package) (af : FilterType) (txt : String),
        txt ≠ "" →
        (search sourceList af false txt).Sorted rankOrder ∧
        (search sourceList af false txt).Perm
          ((guardedAppend (searchMatches (goToLower txt)) (fun p => p.name) id
            (applyFilter af sourceList) ([], [])).1)) ∧
    search [pkgA, pkgB, pkgC] .FilterNone false "mat" = [pkgC, pkgA, pkgB] := by
  constructor
  · intro src af txt htxt
    have hs : search src af false txt =
        sortByLe rankLe (sortByLe rankLe
          ((guardedAppend (searchMatches (goToLower txt)) (fun p => p.name) id
            (applyFilter af src) ([], [])).1)) := by
      unfold search
      simp [htxt]
    rw [hs]
    constructor
    · exact List.Pairwise.imp (fun h => (rankLe_iff _ _).mp h)
        (sortByLe_sorted rankLe rankLe_trans rankLe_total _)
    · exact (sortByLe_perm rankLe _).trans (sortByLe_perm rankLe _)
  · decide

/-- Witness for C6 at the example input. -/
theorem searchRankOrdering_witness :
    "mat" ≠ "" ∧
      (search [pkgA, pkgB, pkgC] .FilterNone false "mat").Sorted rankOrder :=
  ⟨by decide,
    (searchRankOrdering.1 [pkgA, pkgB, pkgC] .FilterNone "mat" (by decide)).1⟩

/-! ## Claim C8 -/

/-- C8: for a batch of three selected packages whose second action fails,
the run logs start/success for items 1 and 3 and start/failure for item 2
(continuing past the failure), and the final summary reports 3 processed
packages — attempted, not succeeded. -/
theorem batchPartialFailure (p1 p2 p3 : Package)
    (action : Package → Except String Unit) (msg : String)
    (h1 : action p1 = .ok ()) (h2 : action p2 = .error msg)
    (h3 : action p3 = .ok ()) :
    processSelectedPackages [1, 2, 3] [p1, p2, p3] action =
      ([.started 1 3 p1.name, .succeeded p1.name,
        .started 2 3 p2.name, .failed p2.name,
        .started 3 3 p3.name, .succeeded p3.name], some 3) := by
  simp [processSelectedPackages, selectPackages, h1, h2, h3]

/-- Witness for C8 at a concrete batch. -/
theorem batchPartialFailure_witness :
    processSelectedPackages [1, 2, 3]
        [{ name := "a" }, { name := "b" }, { name := "c" }]
        (fun p => if p.name = "b" then .error "boom" else .ok ()) =
      ([.started 1 3 "a", .succeeded "a", .started 2 3 "b", .failed "b",
        .started 3 3 "c", .succeeded "c"], some 3) :=
  batchPartialFailure { name := "a" } { name := "b" } { name := "c" }
    (fun p => if p.name = "b" then .error "boom" else .ok ()) "boom"
    (by rfl) (by rfl) (by rfl)

/-! ## Claim C5 -/

/-- C5 counterexample: the installed-cask fetcher does not return a typed
error when its live query fails — with the cache empty and
`brew list --cask` failing, `GetInstalledCasks` silently substitutes the
success result `ok []` ("No casks installed"). -/
theorem fetcherFailure_counterexample :
    GetInstalledCasks (fun _ => none) (fun _ => .error "bad json")
      (.error "exit status 1") (.ok "") true = .ok [] := rfl

/-- C5 (amended): on a live-query failure the installed-formula, remote
catalog and analytics fetchers return the typed error unchanged (one
oracle consultation — no retry, no substituted success); the
installed-cask fetcher alone maps a failed `brew list --cask` or
`brew info` command to the empty success `ok []`, surfacing an error only
when the info output fails to decode. -/
theorem fetcherFailurePolicy (cache : CacheState) (e pp : String)
    (decF : String → Except String (List Formula))
    (decC : String → Except String (List Cask))
    (decA : String → Except String Analytics) :
    GetInstalledFormulae cache decF (.error e) pp true = .error e ∧
    GetRemoteFormulae cache decF (.error e) true = .error e ∧
    GetRemoteCasks cache decC (.error e) true = .error e ∧
    GetFormulaeAnalytics cache decA (.error e) true = .error e ∧
    GetCaskAnalytics cache decA (.error e) true = .error e ∧
    GetInstalledCasks cache decC (.error e) (.ok "") true = .ok [] ∧
    ∀ listOutput,
      GetInstalledCasks cache decC (.ok listOutput) (.error e) true = .ok [] := by
  refine ⟨rfl, rfl, rfl, rfl, rfl, rfl, ?_⟩
  intro listOutput
  unfold GetInstalledCasks
  by_cases hc : (goSplit (goTrimSpace listOutput) '\n').length = 0 ∨
      ((goSplit (goTrimSpace listOutput) '\n').length = 1 ∧
        (goSplit (goTrimSpace listOutput) '\n').headD "" = "")
  · simp [hc]
  · simp [hc]

/-! ## Claim C4 -/

/-- C4 counterexample: the analytics fetchers read their caches with max
age 100, not ~1000 — an analytics document aged 500 ticks (well within
~1000) is a miss and the live failure surfaces, although a read at max
age 1000 would have hit; the remote-formula fetcher at the same age does
return its cached data. -/
theorem cacheTtl_counterexample :
    GetFormulaeAnalytics
        (fun n => if n = "analytics.json" then some { age := 500, data := "A" }
          else none)
        (fun _ => .ok { items := [{ number := 1, formula := "wget" }] })
        (.error "network down") false = .error "network down" ∧
    readCacheFile
        (fun n => if n = "analytics.json" then some { age := 500, data := "A" }
          else none)
        cacheFileAnalytics 1000 = some "A" ∧
    GetRemoteFormulae
        (fun n => if n = "formula.json" then some { age := 500, data := "F" }
          else none)
        (fun _ => .ok [{ name := "wget" }])
        (.error "network down") false = .ok [{ name := "wget" }] :=
  ⟨rfl, rfl, rfl⟩

/-- C4 (amended): both installed-state fetchers attempt their cache read
with max age 10 and both remote catalog fetchers with max age 1000, but
the two analytics fetchers use max age 100 — below the stated age the
cached document is decoded and returned, at or above it the fetcher falls
through to the live call. -/
theorem cacheTtlPerSource (cache : CacheState) (doc : CacheDoc) (e pp : String)
    (fs : List Formula) (cs : List Cask) (an : Analytics) :
    (cache cacheFileInstalled = some doc → doc.age < 10 →
      ∀ dec : String → Except String (List Formula), dec doc.data = .ok fs →
      GetInstalledFormulae cache dec (.error e) pp false =
        .ok (markFormulaeAsInstalled pp fs)) ∧
    (cache cacheFileInstalled = some doc → 10 ≤ doc.age →
      ∀ dec : String → Except String (List Formula),
      GetInstalledFormulae cache dec (.error e) pp false = .error e) ∧
    (cache cacheFileInstalledCasks = some doc → doc.age < 10 →
      ∀ dec : String → Except String (List Cask), dec doc.data = .ok cs →
      GetInstalledCasks cache dec (.error e) (.error e) false =
        .ok (markCasksAsInstalled cs)) ∧
    (cache cacheFileInstalledCasks = some doc → 10 ≤ doc.age →
      ∀ dec : String → Except String (List Cask),
      GetInstalledCasks cache dec (.error e) (.error e) false = .ok []) ∧
    (cache cacheFileFormulae = some doc → doc.age < 1000 →
      ∀ dec : String → Except String (List Formula), dec doc.data = .ok fs →
      fs ≠ [] →
      GetRemoteFormulae cache dec (.error e) false = .ok fs) ∧
    (cache cacheFileFormulae = some doc → 1000 ≤ doc.age →
      ∀ dec : String → Except String (List Formula),
      GetRemoteFormulae cache dec (.error e) false = .error e) ∧
    (cache cacheFileCasks = some doc → doc.age < 1000 →
      ∀ dec : String → Except String (List Cask), dec doc.data = .ok cs →
      cs ≠ [] →
      GetRemoteCasks cache dec (.error e) false = .ok cs) ∧
    (cache cacheFileCasks = some doc → 1000 ≤ doc.age →
      ∀ dec : String → Except String (List Cask),
      GetRemoteCasks cache dec (.error e) false = .error e) ∧
    (cache cacheFileAnalytics = some doc → doc.age < 100 →
      ∀ dec : String → Except String Analytics, dec doc.data = .ok an →
      an.items ≠ [] →
      GetFormulaeAnalytics cache dec (.error e) false =
        .ok (formulaAnalyticsMap an.items)) ∧
    (cache cacheFileAnalytics = some doc → 100 ≤ doc.age →
      ∀ dec : String → Except String Analytics,
      GetFormulaeAnalytics cache dec (.error e) false = .error e) ∧
    (cache cacheFileCaskAnalytics = some doc → doc.age < 100 →
      ∀ dec : String → Except String Analytics, dec doc.data = .ok an →
      an.items ≠ [] →
      GetCaskAnalytics cache dec (.error e) false =
        .ok (caskAnalyticsMap an.items)) ∧
    (cache cacheFileCaskAnalytics = some doc → 100 ≤ doc.age →
      ∀ dec : String → Except String Analytics,
      GetCaskAnalytics cache dec (.error e) false = .error e) := by
  refine ⟨?_, ?_, ?_, ?_, ?_, ?_, ?_, ?_, ?_, ?_, ?_, ?_⟩
  · intro hc hage dec hdec
    simp [GetInstalledFormulae, readCacheFile, hc, hage, hdec]
  · intro hc hage dec
    simp [GetInstalledFormulae, readCacheFile, hc, Nat.not_lt.mpr hage]
  · intro hc hage dec hdec
    simp [GetInstalledCasks, readCacheFile, hc, hage, hdec]
  · intro hc hage dec
    simp [GetInstalledCasks, readCacheFile, hc, Nat.not_lt.mpr hage]
  · intro hc hage dec hdec hne
    simp [GetRemoteFormulae, readCacheFile, hc, hage, hdec,
      List.length_pos.mpr hne]
  · intro hc hage dec
    simp [GetRemoteFormulae, readCacheFile, hc, Nat.not_lt.mpr hage]
  · intro hc hage dec hdec hne
    simp [GetRemoteCasks, readCacheFile, hc, hage, hdec,
      List.length_pos.mpr hne]
  · intro hc hage dec
    simp [GetRemoteCasks, readCacheFile, hc, Nat.not_lt.mpr hage]
  · intro hc hage dec hdec hne
    simp [GetFormulaeAnalytics, readCacheFile, hc, hage, hdec,
      List.length_pos.mpr hne]
  · intro hc hage dec
    simp [GetFormulaeAnalytics, readCacheFile, hc, Nat.not_lt.mpr hage]
  · intro hc hage dec hdec hne
    simp [GetCaskAnalytics, readCacheFile, hc, hage, hdec,
      List.length_pos.mpr hne]
  · intro hc hage dec
    simp [GetCaskAnalytics, readCacheFile, hc, Nat.not_lt.mpr hage]

/-- Witness for C4 (amended) at a concrete cache aged 50. -/
theorem cacheTtlPerSource_witness :
    GetFormulaeAnalytics
        (fun n => if n = "analytics.json" then some { age := 50, data := "A" }
          else none)
        (fun _ => .ok { items := [{ number := 1, formula := "wget" }] })
        (.error "net") false =
      .ok (formulaAnalyticsMap [{ number := 1, formula := "wget" }]) := by
  have h := cacheTtlPerSource
    (fun n => if n = "analytics.json" then some { age := 50, data := "A" }
      else none)
    { age := 50, data := "A" } "net" "p" [] []
    { items := [{ number := 1, formula := "wget" }] }
  exact h.2.2.2.2.2.2.2.2.1 rfl (by decide) _ rfl (by decide)

/-! ## Supporting lemmas: the four merge passes -/

theorem eq_of_filter_singleton {α : Type} (p : α → Bool) (l : List α) (r : α)
    (h : l.filter p = [r]) : ∀ x ∈ l, p x = true → x = r := by
  induction l with
  | nil => simp
  | cons y ys ih =>
    rw [List.filter_cons] at h
    by_cases hy : p y
    · simp only [hy, if_true] at h
      obtain ⟨h1, h2⟩ := List.cons_eq_cons.mp h
      intro x hx hpx
      rcases List.mem_cons.mp hx with rfl | hx
      · exact h1
      · exact absurd hpx (by simpa using List.filter_eq_nil_iff.mp h2 x hx)
    · simp only [hy, Bool.false_eq_true, if_false] at h
      intro x hx hpx
      rcases List.mem_cons.mp hx with rfl | hx
      · exact absurd hpx (by simp [hy])
      · exact ih h x hx hpx

theorem insertInstalledFormulae_get (fA : String → Option AnalyticsItem)
    (iF : List Formula) (n : String) (recF : Formula)
    (m : List (String × Package))
    (h : iF.filter (fun f => f.name == n) = [recF]) :
    goMapGet (insertInstalledFormulae fA iF m) n =
      some (formulaPackage fA recF) := by
  unfold insertInstalledFormulae
  exact goMapGet_foldl_insert_unique (fun f => f.name)
    (fun f => formulaPackage fA f) n recF iF m h

theorem insertInstalledCasks_get (cA : String → Option AnalyticsItem)
    (iC : List Cask) (n : String) (recC : Cask) (m : List (String × Package))
    (h : iC.filter (fun c => c.token == n) = [recC]) :
    goMapGet (insertInstalledCasks cA iC m) n = some (caskPackage cA recC) := by
  unfold insertInstalledCasks
  exact goMapGet_foldl_insert_unique (fun c => c.token)
    (fun c => caskPackage cA c) n recC iC m h

theorem insertInstalledFormulae_pres (fA : String → Option AnalyticsItem)
    (iF : List Formula) (n : String) (o : Option Package)
    (m : List (String × Package)) (hiF : ∀ f ∈ iF, f.name ≠ n)
    (h : goMapGet m n = o) :
    goMapGet (insertInstalledFormulae fA iF m) n = o := by
  unfold insertInstalledFormulae
  refine goMapGet_foldl_pres _ n o iF ?_ m h
  intro m' f hf hm'
  rw [goMapGet_insert_ne _ _ _ _ (hiF f hf)]
  exact hm'

theorem insertInstalledCasks_pres (cA : String → Option AnalyticsItem)
    (iC : List Cask) (n : String) (o : Option Package)
    (m : List (String × Package)) (hiC : ∀ c ∈ iC, c.token ≠ n)
    (h : goMapGet m n = o) :
    goMapGet (insertInstalledCasks cA iC m) n = o := by
  unfold insertInstalledCasks
  refine goMapGet_foldl_pres _ n o iC ?_ m h
  intro m' c hc hm'
  rw [goMapGet_insert_ne _ _ _ _ (hiC c hc)]
  exact hm'

/-- The remote-cask pass never overwrites: a present entry survives it,
with no condition on the cask list. -/
theorem insertRemoteCasks_pres_some (cA : String → Option AnalyticsItem)
    (rC : List Cask) (n : String) (v : Package) (m : List (String × Package))
    (h : goMapGet m n = some v) :
    goMapGet (insertRemoteCasks cA rC m) n = some v := by
  unfold insertRemoteCasks
  refine goMapGet_foldl_pres _ n (some v) rC ?_ m h
  intro m' c hc hm'
  by_cases ht : c.token = n
  · have hsome : (goMapGet m' c.token).isSome := by rw [ht, hm']; rfl
    simp [hsome, hm']
  · by_cases hins : (goMapGet m' c.token).isSome
    · simp [hins, hm']
    · have hred : (if (goMapGet m' c.token).isSome then m'
          else goMapInsert m' c.token (caskPackage cA c)) =
          goMapInsert m' c.token (caskPackage cA c) := by
        simp [hins]
      rw [hred, goMapGet_insert_ne _ _ _ _ ht]
      exact hm'

theorem insertRemoteCasks_pres_none (cA : String → Option AnalyticsItem)
    (rC : List Cask) (n : String) (m : List (String × Package))
    (hrC : ∀ c ∈ rC, c.token ≠ n) (h : goMapGet m n = none) :
    goMapGet (insertRemoteCasks cA rC m) n = none := by
  unfold insertRemoteCasks
  refine goMapGet_foldl_pres _ n none rC ?_ m h
  intro m' c hc hm'
  by_cases hins : (goMapGet m' c.token).isSome
  · simp [hins, hm']
  · have hred : (if (goMapGet m' c.token).isSome then m'
        else goMapInsert m' c.token (caskPackage cA c)) =
        goMapInsert m' c.token (caskPackage cA c) := by
      simp [hins]
    rw [hred, goMapGet_insert_ne _ _ _ _ (hrC c hc)]
    exact hm'

/-- When every remote formula named `n` is platform-skipped, the
remote-formula pass leaves `n` absent. -/
theorem insertRemoteFormulae_skip (isLinux : Bool)
    (fA : String → Option AnalyticsItem) (rF : List Formula) (n : String)
    (hskip : ∀ f ∈ rF, f.name = n → (isLinux && linuxSkipFormula f) = true) :
    goMapGet (insertRemoteFormulae isLinux fA rF) n = none := by
  unfold insertRemoteFormulae
  refine goMapGet_foldl_pres _ n none rF ?_ [] rfl
  intro m f hf hm
  by_cases hfn : f.name = n
  · simp [hskip f hf hfn, hm]
  · by_cases hs : isLinux && linuxSkipFormula f
    · simp [hs, hm]
    · by_cases hins : (goMapGet m f.name).isSome
      · simp [hs, hins, hm]
      · have hred : (if isLinux && linuxSkipFormula f then m
            else if (goMapGet m f.name).isSome then m
            else goMapInsert m f.name (formulaPackage fA f)) =
            goMapInsert m f.name (formulaPackage fA f) := by
          simp [hs, hins]
        rw [hred, goMapGet_insert_ne _ _ _ _ hfn]
        exact hm

/-- The unique remote formula named `n`, when not platform-skipped, is
inserted by the remote-formula pass. -/
theorem insertRemoteFormulae_unique (isLinux : Bool)
    (fA : String → Option AnalyticsItem) (rF : List Formula) (n : String)
    (f0 : Formula) (h : rF.filter (fun f => f.name == n) = [f0])
    (hskip : (isLinux && linuxSkipFormula f0) = false) :
    goMapGet (insertRemoteFormulae isLinux fA rF) n =
      some (formulaPackage fA f0) :=
  goMapGet_foldl_condInsert_unique
    (fun f => isLinux && linuxSkipFormula f) (fun f => f.name)
    (fun f => formulaPackage fA f) n f0 hskip rF [] h rfl

/-! ## Claim C1 -/

/-- C1: a package name present in both an installed-source list and the
corresponding remote-source list merges to the package built from the
installed-source record (analytics attached by name lookup), and its
installed flag is the record's stamped `true` — for formulae and casks
alike.  For the formula case the name must not also be an installed-cask
token: an installed cask is itself installed ground truth and its later
pass would win. -/
theorem mergeInstalledPrecedence (rF iF : List Formula)
    (fA : String → Option AnalyticsItem) (rC iC : List Cask)
    (cA : String → Option AnalyticsItem) (isLinux : Bool) (n : String) :
    (∀ recF : Formula,
       iF.filter (fun f => f.name == n) = [recF] →
       (∃ f ∈ rF, f.name = n) →
       (∀ c ∈ iC, c.token ≠ n) →
       recF.locallyInstalled = true →
       (GetPackages rF iF fA rC iC cA isLinux).filter
           (fun p => p.name == n) = [formulaPackage fA recF] ∧
         (formulaPackage fA recF).locallyInstalled = true) ∧
    (∀ recC : Cask,
       iC.filter (fun c => c.token == n) = [recC] →
       (∃ c ∈ rC, c.token = n) →
       recC.locallyInstalled = true →
       (GetPackages rF iF fA rC iC cA isLinux).filter
           (fun p => p.name == n) = [caskPackage cA recC] ∧
         (caskPackage cA recC).locallyInstalled = true) := by
  have hwf := MapWF_buildPackageMap rF iF fA rC iC cA isLinux
  constructor
  · intro recF hiF hrF hiC hst
    have hget : goMapGet (buildPackageMap rF iF fA rC iC cA isLinux) n =
        some (formulaPackage fA recF) := by
      unfold buildPackageMap
      apply insertInstalledCasks_pres _ _ _ _ _ hiC
      by_cases hl : isLinux
      · rw [if_neg (by simp [hl])]
        exact insertInstalledFormulae_get fA iF n recF _ hiF
      · rw [if_pos (by simp [hl])]
        exact insertRemoteCasks_pres_some _ _ _ _ _
          (insertInstalledFormulae_get fA iF n recF _ hiF)
    have hvals := values_filter_of_get_some (fun p => p.name) _ n _ hwf hget
    refine ⟨?_, ?_⟩
    · unfold GetPackages
      exact sortByLe_filter_singleton nameLe _ _ _ hvals
    · rw [formulaPackage_locallyInstalled]
      exact hst
  · intro recC hiC hrC hst
    have hget : goMapGet (buildPackageMap rF iF fA rC iC cA isLinux) n =
        some (caskPackage cA recC) := by
      unfold buildPackageMap
      exact insertInstalledCasks_get cA iC n recC _ hiC
    have hvals := values_filter_of_get_some (fun p => p.name) _ n _ hwf hget
    refine ⟨?_, ?_⟩
    · unfold GetPackages
      exact sortByLe_filter_singleton nameLe _ _ _ hvals
    · rw [caskPackage_locallyInstalled]
      exact hst

/-- Witness for C1 at a one-formula overlap and a one-cask overlap. -/
theorem mergeInstalledPrecedence_witness :
    (GetPackages [{ name := "wget", description := "remote copy" }]
        [{ name := "wget", description := "installed copy",
           locallyInstalled := true }]
        (fun _ => none) [] [] (fun _ => none) false).filter
      (fun p => p.name == "wget") =
      [formulaPackage (fun _ => none)
        { name := "wget", description := "installed copy",
          locallyInstalled := true }] :=
  ((mergeInstalledPrecedence
      [{ name := "wget", description := "remote copy" }]
      [{ name := "wget", description := "installed copy",
         locallyInstalled := true }]
      (fun _ => none) [] [] (fun _ => none) false "wget").1
    { name := "wget", description := "installed copy",
      locallyInstalled := true }
    (by decide) ⟨_, List.mem_singleton.mpr rfl, rfl⟩ (by simp) rfl).1

/-! ## Claim C2 -/

/-- C2: on the linux platform the merger excludes a remote formula that
declares a `macos` requirement, excludes one whose bottle files are
nonempty with no key containing `linux`, and includes one with zero
bottle files and no `macos` requirement — provided the name comes from no
other source (not an installed formula, not an installed cask; remote
casks are skipped wholesale on linux, and the name is unique in the
remote list). -/
theorem mergePlatformFiltering (rF iF : List Formula)
    (fA : String → Option AnalyticsItem) (rC iC : List Cask)
    (cA : String → Option AnalyticsItem) (n : String) (f0 : Formula)
    (huniq : rF.filter (fun f => f.name == n) = [f0])
    (hiF : ∀ f ∈ iF, f.name ≠ n) (hiC : ∀ c ∈ iC, c.token ≠ n) :
    (f0.requirements.any (fun r => r.name == "macos") = true →
       (GetPackages rF iF fA rC iC cA true).filter
         (fun p => p.name == n) = []) ∧
    (f0.bottle.stable.files ≠ [] →
       (∀ kv ∈ f0.bottle.stable.files, goContains kv.1 "linux" = false) →
       (GetPackages rF iF fA rC iC cA true).filter
         (fun p => p.name == n) = []) ∧
    (f0.bottle.stable.files = [] →
       f0.requirements.any (fun r => r.name == "macos") = false →
       (GetPackages rF iF fA rC iC cA true).filter
         (fun p => p.name == n) = [formulaPackage fA f0]) := by
  have hwf := MapWF_buildPackageMap rF iF fA rC iC cA true
  have hexcl : linuxSkipFormula f0 = true →
      (GetPackages rF iF fA rC iC cA true).filter (fun p => p.name == n) = [] := by
    intro hskip0
    have hget : goMapGet (buildPackageMap rF iF fA rC iC cA true) n = none := by
      unfold buildPackageMap
      apply insertInstalledCasks_pres _ _ _ _ _ hiC
      rw [if_neg (by simp)]
      apply insertInstalledFormulae_pres _ _ _ _ _ hiF
      apply insertRemoteFormulae_skip
      intro f hf hfn
      have hf0 : f = f0 :=
        eq_of_filter_singleton _ rF f0 huniq f hf (by simp [hfn])
      rw [hf0, hskip0]
      rfl
    have hvals := values_filter_of_get_none (fun p => p.name) _ n hwf.2 hget
    unfold GetPackages
    exact sortByLe_filter_nil nameLe _ _ hvals
  refine ⟨?_, ?_, ?_⟩
  · intro hreq
    apply hexcl
    unfold linuxSkipFormula
    simp [hreq]
  · intro hfiles hnolinux
    apply hexcl
    unfold linuxSkipFormula
    by_cases hreq : f0.requirements.any (fun r => r.name == "macos")
    · simp [hreq]
    · have hlen : f0.bottle.stable.files.length > 0 := List.length_pos.mpr hfiles
      have hany : f0.bottle.stable.files.any (fun kv => goContains kv.1 "linux") = false := by
        apply List.any_eq_false.mpr
        intro kv hkv
        simp [hnolinux kv hkv]
      simp [hreq, hlen, hany]
  · intro hfiles hreq
    have hskip0 : linuxSkipFormula f0 = false := by
      unfold linuxSkipFormula
      simp [hreq, hfiles]
    have hget : goMapGet (buildPackageMap rF iF fA rC iC cA true) n =
        some (formulaPackage fA f0) := by
      unfold buildPackageMap
      apply insertInstalledCasks_pres _ _ _ _ _ hiC
      rw [if_neg (by simp)]
      apply insertInstalledFormulae_pres _ _ _ _ _ hiF
      exact insertRemoteFormulae_unique true fA rF n f0 huniq (by simp [hskip0])
    have hvals := values_filter_of_get_some (fun p => p.name) _ n _ hwf hget
    unfold GetPackages
    exact sortByLe_filter_singleton nameLe _ _ _ hvals

/-- Witness for C2: a macos-required formula is excluded and a plain
zero-bottle formula is included, on linux. -/
theorem mergePlatformFiltering_witness :
    ((GetPackages [{ name := "mactool", requirements := [{ name := "macos" }] }]
        [] (fun _ => none) [] [] (fun _ => none) true).filter
      (fun p => p.name == "mactool") = []) ∧
    ((GetPackages [{ name := "plain" }] [] (fun _ => none) [] []
        (fun _ => none) true).filter (fun p => p.name == "plain") =
      [formulaPackage (fun _ => none) { name := "plain" }]) :=
  ⟨(mergePlatformFiltering [{ name := "mactool", requirements := [{ name := "macos" }] }]
      [] (fun _ => none) [] [] (fun _ => none) "mactool"
      { name := "mactool", requirements := [{ name := "macos" }] }
      (by decide) (by simp) (by simp)).1 (by decide),
   (mergePlatformFiltering [{ name := "plain" }] [] (fun _ => none) [] []
      (fun _ => none) "plain" { name := "plain" }
      (by decide) (by simp) (by simp)).2.2 rfl rfl⟩

/-! ## Claim C3 -/

theorem sorted_name_lt_of_le_nodup (l : List Package)
    (hs : l.Pairwise (fun a b => nameLe a b = true))
    (hn : (l.map (fun p => p.name)).Nodup) :
    l.Pairwise (fun a b => a.name < b.name) := by
  have h2 : l.Pairwise (fun a b => a.name ≠ b.name) := List.pairwise_map.mp hn
  apply (hs.and h2).imp
  intro a b hab
  have h1 : a.name ≤ b.name := by
    have := hab.1
    unfold nameLe at this
    exact of_decide_eq_true this
  exact lt_of_le_of_ne h1 hab.2

/-- C3: the merged catalog is sorted by canonical name ascending, and it
does not depend on the order the map's entries are enumerated in: sorting
any permutation of the built map's values gives the same list, so merging
the same source documents twice yields element-wise equal catalogs. -/
theorem mergeIdempotentSorted (rF iF : List Formula)
    (fA : String → Option AnalyticsItem) (rC iC : List Cask)
    (cA : String → Option AnalyticsItem) (isLinux : Bool) :
    (GetPackages rF iF fA rC iC cA isLinux).Sorted
        (fun a b => a.name ≤ b.name) ∧
    ∀ vs : List Package,
      vs.Perm ((buildPackageMap rF iF fA rC iC cA isLinux).map Prod.snd) →
      sortByLe nameLe vs = GetPackages rF iF fA rC iC cA isLinux := by
  have hwf := MapWF_buildPackageMap rF iF fA rC iC cA isLinux
  have hnames : (((buildPackageMap rF iF fA rC iC cA isLinux).map
      Prod.snd).map (fun p => p.name)).Nodup := by
    have hmapeq : (((buildPackageMap rF iF fA rC iC cA isLinux).map
        Prod.snd).map (fun p => p.name)) =
        (buildPackageMap rF iF fA rC iC cA isLinux).map Prod.fst := by
      rw [List.map_map]
      apply List.map_congr_left
      intro kv hkv
      exact hwf.2 kv hkv
    rw [hmapeq]
    exact hwf.1
  constructor
  · exact List.Pairwise.imp
      (fun h => by unfold nameLe at h; exact of_decide_eq_true h)
      (sortByLe_sorted nameLe nameLe_trans nameLe_total _)
  · intro vs hvs
    have hperm : (sortByLe nameLe vs).Perm
        (GetPackages rF iF fA rC iC cA isLinux) :=
      (sortByLe_perm nameLe vs).trans
        (hvs.trans (sortByLe_perm nameLe _).symm)
    have hs1 : (sortByLe nameLe vs).Pairwise (fun a b => a.name < b.name) := by
      apply sorted_name_lt_of_le_nodup _
        (sortByLe_sorted nameLe nameLe_trans nameLe_total vs)
      have : ((sortByLe nameLe vs).map (fun p => p.name)).Perm
          ((((buildPackageMap rF iF fA rC iC cA isLinux).map Prod.snd)).map
            (fun p => p.name)) :=
        ((sortByLe_perm nameLe vs).trans hvs).map (fun p => p.name)
      exact this.nodup_iff.mpr hnames
    have hs2 : (GetPackages rF iF fA rC iC cA isLinux).Pairwise
        (fun a b => a.name < b.name) := by
      apply sorted_name_lt_of_le_nodup _
        (sortByLe_sorted nameLe nameLe_trans nameLe_total _)
      have : ((GetPackages rF iF fA rC iC cA isLinux).map
          (fun p => p.name)).Perm
          ((((buildPackageMap rF iF fA rC iC cA isLinux).map Prod.snd)).map
            (fun p => p.name)) :=
        (sortByLe_perm nameLe _).map (fun p => p.name)
      exact this.nodup_iff.mpr hnames
    exact @List.eq_of_perm_of_sorted Package (fun a b => a.name < b.name)
      ⟨fun a b h h' => absurd h' (not_lt.mpr (le_of_lt h))⟩ _ _ hperm hs1 hs2

/-- Witness for C3: enumerating the map backwards merges to the same
catalog. -/
theorem mergeIdempotentSorted_witness :
    sortByLe nameLe
        (((buildPackageMap [{ name := "wget" }, { name := "curl" }] []
          (fun _ => none) [] [] (fun _ => none) false).map
            Prod.snd).reverse) =
      GetPackages [{ name := "wget" }, { name := "curl" }] []
        (fun _ => none) [] [] (fun _ => none) false :=
  (mergeIdempotentSorted [{ name := "wget" }, { name := "curl" }] []
      (fun _ => none) [] [] (fun _ => none) false).2 _
    (List.reverse_perm _)

/-! ## Supporting lemmas: the dedup-append loops -/

theorem stampInstalled_name (iC iF : String → Bool) (pkg : Package) :
    (stampInstalled iC iF pkg).name = pkg.name := by
  unfold stampInstalled
  by_cases h : pkg.type == PackageTypeCask <;> simp [h]

theorem contains_iff_mem (l : List String) (a : String) :
    l.contains a = true ↔ a ∈ l :=
  List.elem_iff

/-- A key already recorded as found stays found. -/
theorem guardedAppend_contains_mono {α : Type} (keep : α → Bool)
    (keyOf : α → String) (tf : α → Package) (n : String) :
    ∀ (items : List α) (acc : List Package) (found : List String),
      found.contains n = true →
      ((guardedAppend keep keyOf tf items (acc, found)).2).contains n = true := by
  intro items
  induction items with
  | nil => intro acc found h; exact h
  | cons x xs ih =>
    intro acc found h
    unfold guardedAppend
    by_cases hg : keep x && !(found.contains (keyOf x))
    · rw [if_pos hg]
      exact ih _ _ ((contains_iff_mem _ _).mpr
        (List.mem_cons_of_mem _ ((contains_iff_mem _ _).mp h)))
    · rw [if_neg hg]
      exact ih _ _ h

/-- Once a key is found, the loop appends nothing more with that name. -/
theorem guardedAppend_filter_found {α : Type} (keep : α → Bool)
    (keyOf : α → String) (tf : α → Package) (n : String)
    (htf : ∀ x, (tf x).name = keyOf x) :
    ∀ (items : List α) (acc : List Package) (found : List String),
      found.contains n = true →
      ((guardedAppend keep keyOf tf items (acc, found)).1).filter
        (fun p => p.name == n) = acc.filter (fun p => p.name == n) := by
  intro items
  induction items with
  | nil => intro acc found _; rfl
  | cons x xs ih =>
    intro acc found hfound
    unfold guardedAppend
    by_cases hg : keep x && !(found.contains (keyOf x))
    · have hgc : found.contains (keyOf x) = false := by
        cases hcc : found.contains (keyOf x)
        · rfl
        · rw [hcc] at hg
          simp at hg
      have hne : keyOf x ≠ n := by
        intro heq
        rw [heq, hfound] at hgc
        exact Bool.noConfusion hgc
      rw [if_pos hg,
        ih (acc ++ [tf x]) (keyOf x :: found)
          ((contains_iff_mem _ _).mpr
            (List.mem_cons_of_mem _ ((contains_iff_mem _ _).mp hfound))),
        List.filter_append]
      have hb : ((tf x).name == n) = false := by
        rw [htf x]
        exact beq_eq_false_iff_ne.mpr hne
      simp [hb]
    · rw [if_neg hg]
      exact ih acc found hfound

/-- A loop admitting no item keyed `n` changes neither the `n`-filtered
output nor whether `n` is found. -/
theorem guardedAppend_filter_nomatch {α : Type} (keep : α → Bool)
    (keyOf : α → String) (tf : α → Package) (n : String)
    (htf : ∀ x, (tf x).name = keyOf x) :
    ∀ (items : List α) (acc : List Package) (found : List String),
      (∀ x ∈ items, keyOf x = n → keep x = false) →
      ((guardedAppend keep keyOf tf items (acc, found)).1).filter
          (fun p => p.name == n) = acc.filter (fun p => p.name == n) ∧
      ((guardedAppend keep keyOf tf items (acc, found)).2).contains n =
        found.contains n := by
  intro items
  induction items with
  | nil => intro acc found _; exact ⟨rfl, rfl⟩
  | cons x xs ih =>
    intro acc found hno
    unfold guardedAppend
    by_cases hg : keep x && !(found.contains (keyOf x))
    · have hne : keyOf x ≠ n := by
        intro heq
        have hkeep := hno x (List.mem_cons_self _ _) heq
        simp [hkeep] at hg
      rw [if_pos hg]
      obtain ⟨h1, h2⟩ := ih (acc ++ [tf x]) (keyOf x :: found)
        (fun y hy => hno y (List.mem_cons_of_mem _ hy))
      have hb : ((tf x).name == n) = false := by
        rw [htf x]
        exact beq_eq_false_iff_ne.mpr hne
      have hb2 : (n == keyOf x) = false :=
        beq_eq_false_iff_ne.mpr (fun hh => hne hh.symm)
      refine ⟨?_, ?_⟩
      · rw [h1, List.filter_append]
        simp [hb]
      · rw [h2, List.contains_cons, hb2]
        simp
    · rw [if_neg hg]
      exact ih acc found (fun y hy => hno y (List.mem_cons_of_mem _ hy))

/-- The first admissible item keyed `n` is appended once; everything else
keyed `n` is deduplicated away. -/
theorem guardedAppend_filter_firstkeep {α : Type} (keep : α → Bool)
    (keyOf : α → String) (tf : α → Package) (n : String) (r : α)
    (htf : ∀ x, (tf x).name = keyOf x) :
    ∀ (items : List α) (acc : List Package) (found : List String),
      items.filter (fun x => keyOf x == n) = [r] →
      keep r = true →
      found.contains n = false →
      acc.filter (fun p => p.name == n) = [] →
      ((guardedAppend keep keyOf tf items (acc, found)).1).filter
          (fun p => p.name == n) = [tf r] ∧
      ((guardedAppend keep keyOf tf items (acc, found)).2).contains n = true := by
  intro items
  induction items with
  | nil => intro acc found h _ _ _; simp at h
  | cons x xs ih =>
    intro acc found hfilter hkeep hfound hacc
    rw [List.filter_cons] at hfilter
    by_cases hx : keyOf x = n
    · simp only [hx, beq_self_eq_true, if_true] at hfilter
      obtain ⟨h1, hrest⟩ := List.cons_eq_cons.mp hfilter
      subst h1
      unfold guardedAppend
      have hg : (keep x && !(found.contains (keyOf x))) = true := by
        rw [hx, hfound, hkeep]
        rfl
      rw [if_pos hg]
      have hc : ((keyOf x :: found).contains n) = true := by
        rw [List.contains_cons, hx]
        simp
      refine ⟨?_, ?_⟩
      · rw [guardedAppend_filter_found keep keyOf tf n htf xs _ _ hc,
          List.filter_append, hacc]
        have hb : ((tf x).name == n) = true := by
          rw [htf x, hx]
          simp
        simp [hb]
      · exact guardedAppend_contains_mono keep keyOf tf n xs _ _ hc
    · simp only [beq_iff_eq, hx, if_false] at hfilter
      unfold guardedAppend
      by_cases hg : keep x && !(found.contains (keyOf x))
      · rw [if_pos hg]
        have hb2 : (n == keyOf x) = false :=
          beq_eq_false_iff_ne.mpr (fun hh => hx hh.symm)
        apply ih (acc ++ [tf x]) (keyOf x :: found) hfilter hkeep
        · rw [List.contains_cons, hb2, hfound]
          rfl
        · rw [List.filter_append, hacc]
          have hb : ((tf x).name == n) = false := by
            rw [htf x]
            exact beq_eq_false_iff_ne.mpr hx
          simp [hb]
      · rw [if_neg hg]
        exact ih acc found hfilter hkeep hfound hacc

/-- Sharpening a singleton filter by a condition the survivor meets. -/
theorem filter_and_singleton {α : Type} (p q : α → Bool) (l : List α) (r : α)
    (h : l.filter p = [r]) (hq : q r = true) :
    l.filter (fun a => p a && q a) = [r] := by
  induction l with
  | nil => simp at h
  | cons y ys ih =>
    rw [List.filter_cons] at h ⊢
    by_cases hy : p y
    · simp only [hy, if_true] at h
      obtain ⟨h1, h2⟩ := List.cons_eq_cons.mp h
      subst h1
      rw [if_pos (by simp [hy, hq])]
      have : ys.filter (fun a => p a && q a) = [] := by
        apply List.filter_eq_nil_iff.mpr
        intro a ha
        have := List.filter_eq_nil_iff.mp h2 a ha
        simp_all
      rw [this]
    · simp only [hy, Bool.false_eq_true, if_false] at h
      rw [if_neg (by simp [hy])]
      exact ih h

/-! ## Claim C9 -/

/-- C9 counterexample: the claimed "placeholder with installed flag
false" does not hold as stated — the placeholder's installed flag is
re-stamped from the live installed-name lookup, so a manifest entry
absent from the catalog whose name the live lookup reports installed
(e.g. the catalog cache is stale after a recent tap install) yields a
placeholder with the installed flag `true`. -/
theorem brewfilePlaceholder_counterexample :
    (loadBrewfilePackages "brew \"mytool\"" [] (fun _ => false)
        (fun _ => true) none (fun _ => none) (fun _ => none) (fun _ _ => [])
        true).map (fun p => (p.name, p.locallyInstalled, p.description)) =
      [("mytool", true, "Waiting for tap installation...")] := by
  decide

/-- C9 (amended): a manifest entry absent from the catalog at Phase A
produces exactly one result entry: the placeholder, with description
"Waiting for tap installation..." and its installed flag re-stamped from
the live installed-name lookup (hence `false` whenever that lookup does
not report the name installed); after Phase B, with the real package now
in the catalog under the entry's name and kind, the same name resolves to
exactly one entry: that package, installed flag re-stamped the same way —
no duplicates in either phase. -/
theorem brewfilePlaceholderResolution (iC iF : String → Bool)
    (cache : CacheState) (dec : String → Option (List Package))
    (fetched : List String → Bool → List (String × Package))
    (n : String) (e : BrewfileEntry) :
    (∀ (brewfileData : String) (packages : List Package),
      (parseBrewfileWithTaps brewfileData).packages.filter
          (fun x => x.name == n) = [e] →
      (∀ p ∈ packages, p.name ≠ n) →
      (loadBrewfilePackages brewfileData packages iC iF none cache dec
          fetched true).filter (fun p => p.name == n) =
        [stampInstalled iC iF (placeholderPackage e)] ∧
      ((if e.isCask then iC n else iF n) = false →
        (stampInstalled iC iF (placeholderPackage e)).locallyInstalled =
          false) ∧
      (stampInstalled iC iF (placeholderPackage e)).description =
        "Waiting for tap installation...") ∧
    (∀ (brewfileData : String) (packages : List Package) (p : Package),
      (parseBrewfileWithTaps brewfileData).packages.filter
          (fun x => x.name == n) = [e] →
      packages.filter (fun q => q.name == n) = [p] →
      p.type = (if e.isCask then PackageTypeCask else PackageTypeFormula) →
      (loadBrewfilePackages brewfileData packages iC iF none cache dec
          fetched false).filter (fun q => q.name == n) =
        [stampInstalled iC iF p]) := by
  constructor
  · intro brewfileData packages hfilter habsent
    have hemem : e ∈ (parseBrewfileWithTaps brewfileData).packages.filter
        (fun x => x.name == n) := by
      rw [hfilter]; exact List.mem_singleton.mpr rfl
    obtain ⟨hein, hen'⟩ := List.mem_filter.mp hemem
    have hen : e.name = n := by simpa using hen'
    refine ⟨?_, ?_, ?_⟩
    · unfold loadBrewfilePackages
      dsimp only
      obtain ⟨hst1, hst1c⟩ := guardedAppend_filter_nomatch
        (brewfileKeep (brewfilePackageMap
          (parseBrewfileWithTaps brewfileData).packages))
        (fun p => p.name) (stampInstalled iC iF) n
        (stampInstalled_name iC iF) packages [] []
        (fun y hy hyn => absurd hyn (habsent y hy))
      have htap : ((parseBrewfileWithTaps brewfileData).packages.filter
          (fun entry => !((guardedAppend
            (brewfileKeep (brewfilePackageMap
              (parseBrewfileWithTaps brewfileData).packages))
            (fun p => p.name) (stampInstalled iC iF) packages
            ([], [])).2).contains entry.name)).filter
          (fun x => x.name == n) = [e] := by
        rw [List.filter_filter]
        apply filter_and_singleton _ _ _ _ hfilter
        rw [hen, hst1c]
        rfl
      have hmemtap : e ∈ (parseBrewfileWithTaps brewfileData).packages.filter
          (fun entry => !((guardedAppend
            (brewfileKeep (brewfilePackageMap
              (parseBrewfileWithTaps brewfileData).packages))
            (fun p => p.name) (stampInstalled iC iF) packages
            ([], [])).2).contains entry.name) := by
        have : e ∈ ((parseBrewfileWithTaps brewfileData).packages.filter
            (fun entry => !((guardedAppend
              (brewfileKeep (brewfilePackageMap
                (parseBrewfileWithTaps brewfileData).packages))
              (fun p => p.name) (stampInstalled iC iF) packages
              ([], [])).2).contains entry.name)).filter
            (fun x => x.name == n) := by
          rw [htap]; exact List.mem_singleton.mpr rfl
        exact (List.mem_filter.mp this).1
      have hlen : 0 < ((parseBrewfileWithTaps brewfileData).packages.filter
          (fun entry => !((guardedAppend
            (brewfileKeep (brewfilePackageMap
              (parseBrewfileWithTaps brewfileData).packages))
            (fun p => p.name) (stampInstalled iC iF) packages
            ([], [])).2).contains entry.name)).length :=
        List.length_pos.mpr (List.ne_nil_of_mem hmemtap)
      rw [if_pos hlen, if_pos rfl]
      apply sortByLe_filter_singleton
      have hplaceholder : (((parseBrewfileWithTaps brewfileData).packages.filter
          (fun entry => !((guardedAppend
            (brewfileKeep (brewfilePackageMap
              (parseBrewfileWithTaps brewfileData).packages))
            (fun p => p.name) (stampInstalled iC iF) packages
            ([], [])).2).contains entry.name)).map
          placeholderPackage).filter (fun x => x.name == n) =
          [placeholderPackage e] := by
        rw [List.filter_map]
        have : ((fun x : Package => x.name == n) ∘ placeholderPackage) =
            (fun entry : BrewfileEntry => entry.name == n) := by
          funext entry
          rfl
        rw [this, htap]
        rfl
      exact (guardedAppend_filter_firstkeep (fun _ => true) (fun p => p.name)
        (stampInstalled iC iF) n (placeholderPackage e)
        (stampInstalled_name iC iF) _ _ _ hplaceholder rfl hst1c hst1).1
    · intro hnotinst
      unfold stampInstalled placeholderPackage
      by_cases hcask : e.isCask <;> simp_all [PackageTypeCask, PackageTypeFormula]
    · unfold stampInstalled placeholderPackage
      by_cases hcask : e.isCask <;> simp [hcask, PackageTypeCask, PackageTypeFormula]
  · intro brewfileData packages p hfilter hpkg htype
    have hemem : e ∈ (parseBrewfileWithTaps brewfileData).packages.filter
        (fun x => x.name == n) := by
      rw [hfilter]; exact List.mem_singleton.mpr rfl
    obtain ⟨hein, hen'⟩ := List.mem_filter.mp hemem
    have hen : e.name = n := by simpa using hen'
    have hpmem : p ∈ packages.filter (fun q => q.name == n) := by
      rw [hpkg]; exact List.mem_singleton.mpr rfl
    obtain ⟨hpin, hpn'⟩ := List.mem_filter.mp hpmem
    have hpn : p.name = n := by simpa using hpn'
    have hkeepP : brewfileKeep (brewfilePackageMap
        (parseBrewfileWithTaps brewfileData).packages) p = true := by
      unfold brewfileKeep brewfilePackageMap
      rw [hpn]
      rw [goMapGet_foldl_insert_unique (fun entry => entry.name)
        (fun entry => if entry.isCask then PackageTypeCask
          else PackageTypeFormula) n e _ [] hfilter]
      rw [htype]
      simp
    unfold loadBrewfilePackages
    dsimp only
    obtain ⟨hst1, hst1c⟩ := guardedAppend_filter_firstkeep
      (brewfileKeep (brewfilePackageMap
        (parseBrewfileWithTaps brewfileData).packages))
      (fun p => p.name) (stampInstalled iC iF) n p
      (stampInstalled_name iC iF) packages [] [] hpkg hkeepP rfl rfl
    by_cases hlen : 0 < ((parseBrewfileWithTaps brewfileData).packages.filter
        (fun entry => !((guardedAppend
          (brewfileKeep (brewfilePackageMap
            (parseBrewfileWithTaps brewfileData).packages))
          (fun p => p.name) (stampInstalled iC iF) packages
          ([], [])).2).contains entry.name)).length
    · rw [if_pos hlen]
      apply sortByLe_filter_singleton
      rw [guardedAppend_filter_found (fun _ => true) (fun p => p.name)
        (stampInstalled iC iF) n (stampInstalled_name iC iF) _ _ _ hst1c]
      exact hst1
    · rw [if_neg hlen]
      apply sortByLe_filter_singleton
      exact hst1

/-- Witness for C9 (amended): at Phase A a one-line manifest with an
empty catalog resolves to the (uninstalled) placeholder. -/
theorem brewfilePlaceholderResolution_witness :
    (loadBrewfilePackages "brew \"mytool\"" [] (fun _ => false)
        (fun _ => false) none (fun _ => none) (fun _ => none) (fun _ _ => [])
        true).filter (fun p => p.name == "mytool") =
      [stampInstalled (fun _ => false) (fun _ => false)
        (placeholderPackage { name := "mytool" })] :=
  ((brewfilePlaceholderResolution (fun _ => false) (fun _ => false)
      (fun _ => none) (fun _ => none) (fun _ _ => []) "mytool"
      { name := "mytool" }).1 "brew \"mytool\"" [] (by decide)
    (by simp)).1

end BBrew
